import Mathlib

/-! Verification of the yaml2pbip compiler against its specification.

This file contains a shallow embedding of the parts of the yaml2pbip
source code that the verified properties are about: the Pydantic spec
model (src/yaml2pbip/spec.py), the transform and DAX template registries
(src/yaml2pbip/transforms.py, src/yaml2pbip/dax.py) and the partition
M-code generator (src/yaml2pbip/emit.py, src/yaml2pbip/mcode/builder.py).

Python strings are modelled as lists of characters; each Python string
operation used by the source is embedded as a function on such lists.
Regular expressions used by the source are embedded as deterministic
scanners that implement the exact matching semantics of the concrete
pattern they mirror (the patterns involved have disjoint character
classes at every backtracking point, so the greedy semantics of the
Python regex engine collapses to a deterministic recursive descent;
each embedding documents the pattern it implements). ASCII data is
assumed throughout, matching the data the compiler processes.
-/

namespace Yaml2Pbip

/-- Python strings are modelled as lists of characters. -/
abbrev Str := List Char

/-- Character data of a Lean string literal, used to write embedded
Python string constants. -/
def chars (s : String) : Str := s.data

/-- Python regex word character (ASCII fragment of backslash-w). -/
def isWordChar (c : Char) : Bool := c.isAlphanum || c = '_'

/-- Python regex whitespace (backslash-s) and str.strip default set. -/
def pyIsSpace (c : Char) : Bool :=
  c = ' ' || c = '\t' || c = '\n' || c = '\r' || c = '\x0b' || c = '\x0c'

/-- Python str.lstrip with no argument. -/
def pyLStrip (s : Str) : Str := s.dropWhile pyIsSpace

/-- Python str.rstrip with no argument. -/
def pyRStrip (s : Str) : Str := (s.reverse.dropWhile pyIsSpace).reverse

/-- Python str.strip with no argument. -/
def pyStrip (s : Str) : Str := pyRStrip (pyLStrip s)

/-- Python str.rstrip for a single given character, as in rstrip of a comma:
removes every trailing occurrence of that character. -/
def pyRStripChar (c : Char) (s : Str) : Str :=
  (s.reverse.dropWhile (fun d => d = c)).reverse

/-- Python str.endswith. -/
def pyEndsWith (s suf : Str) : Bool := suf.isSuffixOf s

/-- Python str.startswith. -/
def pyStartsWith (s pre : Str) : Bool := pre.isPrefixOf s

/-- Python substring membership test (the in operator on strings). -/
def pyContains (s sub : Str) : Bool := s.tails.any (fun t => sub.isPrefixOf t)

/-- Python str.lower (ASCII). -/
def pyLower (s : Str) : Str := s.map Char.toLower

/-- Python str.upper (ASCII). -/
def pyUpper (s : Str) : Str := s.map Char.toUpper

/-- Helper for pySplitChar; accumulates the current field reversed. -/
def splitCharAux (sep : Char) (cur : Str) : Str → List Str
  | [] => [cur.reverse]
  | c :: cs =>
    if c = sep then cur.reverse :: splitCharAux sep [] cs
    else splitCharAux sep (c :: cur) cs

/-- Python str.split on a one-character separator. -/
def pySplitChar (sep : Char) (s : Str) : List Str := splitCharAux sep [] s

/-- Python separator.join over a list of strings. -/
def pyJoin (sep : Str) (xs : List Str) : Str := List.intercalate sep xs

/-- Fuel-driven helper for pyReplace: replaces leftmost non-overlapping
occurrences, scanning one character at a time. The fuel argument only
serves termination; callers pass the input length plus one, which is
always sufficient because each step consumes at least one character. -/
def pyReplaceF (pat rep : Str) : Nat → Str → Str
  | 0, s => s
  | _ + 1, [] => []
  | fuel + 1, c :: cs =>
    if pat ≠ [] ∧ pat.isPrefixOf (c :: cs) then
      rep ++ pyReplaceF pat rep fuel (List.drop (pat.length - 1) cs)
    else c :: pyReplaceF pat rep fuel cs

/-- Python str.replace: replaces every leftmost non-overlapping occurrence
of pat by rep (pat non-empty in every use by the source). -/
def pyReplace (s pat rep : Str) : Str := pyReplaceF pat rep (s.length + 1) s

/-- Whether a string starts with a word character (used for the regex
word-boundary test at the right edge of a match). -/
def headIsWordChar : Str → Bool
  | [] => false
  | c :: _ => isWordChar c

/-- Fuel-driven helper for replaceParamInBody. prevWord records whether
the previously scanned character was a word character. -/
def replaceIdentF (pat rep : Str) : Nat → Bool → Str → Str
  | 0, _, s => s
  | _ + 1, _, [] => []
  | fuel + 1, prevWord, c :: cs =>
    if !prevWord ∧ pat ≠ [] ∧ pat.isPrefixOf (c :: cs) ∧
        !headIsWordChar (List.drop (pat.length - 1) cs) then
      rep ++ replaceIdentF pat rep fuel true (List.drop (pat.length - 1) cs)
    else c :: replaceIdentF pat rep fuel (isWordChar c) cs

/-- Embedding of emit.py _replace_param_in_body: re.sub of the pattern
backslash-b param backslash-b, replacing every leftmost non-overlapping
whole-identifier occurrence of param. The source only calls this with a
parameter name made of word characters (extracted by a backslash-w-plus
group, or the fallback name t), for which the word-boundary conditions
are: the previous character is not a word character and the character
following the occurrence is not a word character. -/
def replaceParamInBody (body param repl : Str) : Str :=
  replaceIdentF param repl (body.length + 1) false body

/-- Python truthiness of an optional string field: None and the empty
string are falsy. -/
def optStrTruthy : Option Str → Bool
  | none => false
  | some s => !s.isEmpty

/-! ## Spec model (src/yaml2pbip/spec.py) -/

/-- Embedding of spec.py Navigation (database, schema, table). -/
structure Navigation where
  database : Option Str
  schema_ : Str
  table : Str
deriving DecidableEq

/-- Embedding of spec.py Partition. -/
structure Partition where
  name : Str
  mode : Str := chars "import"
  use : Option Str := none
  navigation : Option Navigation := none
  nativeQuery : Option Str := none
  entityName : Option Str := none
  schemaName : Option Str := none
  expressionSource : Option Str := none
  custom_steps : List Str := []
deriving DecidableEq

/-- Embedding of the Partition.validate_partition_type model validator
(spec.py lines 134 to 150): a directLake partition requires the three
entity fields and forbids navigation and nativeQuery; any other mode
requires the use field and forbids the three entity fields. -/
def validate_partition_type (p : Partition) : Except Str Partition :=
  if p.mode = chars "directLake" then
    if !optStrTruthy p.entityName || !optStrTruthy p.schemaName
        || !optStrTruthy p.expressionSource then
      Except.error (chars "directLake partition requires entityName, schemaName, and expressionSource")
    else if p.navigation.isSome || optStrTruthy p.nativeQuery then
      Except.error (chars "directLake partition should not have navigation or nativeQuery")
    else Except.ok p
  else
    if !optStrTruthy p.use then
      Except.error (chars "import/directquery partition requires 'use' field to reference a source")
    else if optStrTruthy p.entityName || optStrTruthy p.schemaName
        || optStrTruthy p.expressionSource then
      Except.error (chars "import/directquery partition should not have entityName, schemaName, or expressionSource")
    else Except.ok p

/-- Embedding of spec.py Measure (only the fields the verified
properties depend on). -/
structure Measure where
  name : Str
  expression : Str
deriving DecidableEq

/-- Embedding of Table._generate_dax_expression: fixed lookup of the
lower-cased aggregation function, falling back to the upper-cased
function name applied to the column reference. -/
def generate_dax_expression (aggFunc colRef : Str) : Str :=
  let lower := pyLower aggFunc
  if lower = chars "sum" then chars "SUM(" ++ colRef ++ chars ")"
  else if lower = chars "avg" then chars "AVERAGE(" ++ colRef ++ chars ")"
  else if lower = chars "average" then chars "AVERAGE(" ++ colRef ++ chars ")"
  else if lower = chars "min" then chars "MIN(" ++ colRef ++ chars ")"
  else if lower = chars "max" then chars "MAX(" ++ colRef ++ chars ")"
  else if lower = chars "count" then chars "COUNT(" ++ colRef ++ chars ")"
  else if lower = chars "countrows" then chars "COUNTROWS(" ++ colRef ++ chars ")"
  else if lower = chars "distinctcount" then chars "DISTINCTCOUNT(" ++ colRef ++ chars ")"
  else pyUpper aggFunc ++ chars "(" ++ colRef ++ chars ")"

/-- Python col_ref.rsplit at the last dot, returning the parts before and
after it (only called when the string contains a dot). -/
def rsplitDot (s : Str) : Str × Str :=
  let r := s.reverse
  ((r.dropWhile (fun c => c ≠ '.')).drop 1 |>.reverse,
   (r.takeWhile (fun c => c ≠ '.')).reverse)

/-- One iteration of the inner loop of Table._generate_measures_from_base:
expands one aggregation-function entry into one measure per non-empty
comma-separated column reference. -/
def measuresForEntry (aggFunc colsStr : Str) : List Measure :=
  ((pySplitChar ',' colsStr).map pyStrip).filterMap (fun colRef =>
    if colRef.isEmpty then none
    else
      let tc : Option Str × Str :=
        if colRef.contains '.' then
          let p := rsplitDot colRef
          (some p.fst, p.snd)
        else (none, colRef)
      let measureName := aggFunc ++ chars "_" ++ tc.snd
      let columnRefDax :=
        match tc.fst with
        | some t => chars "\x27" ++ t ++ chars "\x27[" ++ tc.snd ++ chars "]"
        | none => chars "[" ++ tc.snd ++ chars "]"
      some { name := measureName,
             expression := generate_dax_expression aggFunc columnRefDax })

/-- Embedding of Table._generate_measures_from_base (spec.py lines 224
to 270), iterating the base-measures mapping in insertion order. -/
def generate_measures_from_base (base : List (Str × Str)) : List Measure :=
  base.flatMap (fun e => measuresForEntry e.fst e.snd)

/-- Python dict update of one key: replaces the value in place when the
key exists, otherwise appends the pair (insertion order preserved). -/
def dictUpdateOne (d : List (Str × Str)) (k : Str) (v : Str) : List (Str × Str) :=
  if d.any (fun e => e.fst = k) then
    d.map (fun e => if e.fst = k then (k, v) else e)
  else d ++ [(k, v)]

/-- Python dict.update of a whole mapping. -/
def dictUpdate (d items : List (Str × Str)) : List (Str × Str) :=
  items.foldl (fun acc e => dictUpdateOne acc e.fst e.snd) d

/-- The two accepted YAML shapes of base_measures: a mapping, or a list
of mappings. -/
inductive BaseMeasures where
  | dictForm : List (Str × Str) → BaseMeasures
  | listForm : List (List (Str × Str)) → BaseMeasures
deriving DecidableEq

/-- The list-of-mappings normalization inside
Table.populate_partitions_and_base_measures: an empty dict accumulates
every item by dict update. -/
def normalizeBaseMeasures : BaseMeasures → List (Str × Str)
  | .dictForm d => d
  | .listForm items => items.foldl (fun acc item => dictUpdate acc item) []

/-- Embedding of the base_measures handling inside
Table.populate_partitions_and_base_measures (spec.py lines 199 to 221):
when base_measures is truthy, normalize it, and when the normalized
mapping is non-empty prepend the generated measures to the explicitly
authored ones. -/
def populate_measures (bmOpt : Option BaseMeasures) (existing : List Measure) :
    List Measure :=
  match bmOpt with
  | none => existing
  | some bm =>
    let truthy :=
      match bm with
      | .dictForm d => !d.isEmpty
      | .listForm l => !l.isEmpty
    if !truthy then existing
    else
      let b := normalizeBaseMeasures bm
      if b.isEmpty then existing
      else generate_measures_from_base b ++ existing

/-- One YAML partition entry as seen by the before-mode validator: the
optional name value (none models a missing key) and the remaining
key/value pairs, which the name defaulting never touches. -/
structure PartEntry where
  name : Option Str
  rest : List (Str × Str) := []
deriving DecidableEq

/-- The two accepted YAML shapes of the partitions field: a single
mapping or a list of mappings. -/
inductive PartsInput where
  | single : PartEntry → PartsInput
  | listOf : List PartEntry → PartsInput
deriving DecidableEq

/-- The default partition name computed by
Table.populate_partitions_and_base_measures: the table name upper-cased
with spaces replaced by underscores, or the literal PARTITION when the
table name is not a string (modelled as none). -/
def defaultPartitionName (tblName : Option Str) : Str :=
  match tblName with
  | some s => pyReplace (pyUpper s) (chars " ") (chars "_")
  | none => chars "PARTITION"

/-- The per-entry name defaulting: a falsy name value (missing or empty)
is replaced by the default partition name. -/
def fillPartitionName (tblName : Option Str) (p : PartEntry) : PartEntry :=
  match p.name with
  | some s => if s.isEmpty then { p with name := some (defaultPartitionName tblName) } else p
  | none => { p with name := some (defaultPartitionName tblName) }

/-- Embedding of the partitions handling inside
Table.populate_partitions_and_base_measures (spec.py lines 176 to 197):
a missing field becomes the empty list, a single mapping becomes a
one-element list, and every entry without a truthy name is given the
default name. -/
def populate_partitions (tblName : Option Str) (parts : Option PartsInput) :
    List PartEntry :=
  match parts with
  | none => []
  | some (.single p) => [fillPartitionName tblName p]
  | some (.listOf ps) => ps.map (fillPartitionName tblName)

/-! ## Transform and DAX template registries
(src/yaml2pbip/transforms.py, src/yaml2pbip/dax.py)

A snippet file is modelled as a pair of its base file name and its
text; a directory is the list of its matching files in scan order; the
registry input is the ordered directory list. -/

/-- The IDENT regex of transforms.py and dax.py: a letter or underscore
followed by word characters, matching the whole string. -/
def identMatch (s : Str) : Bool :=
  match s with
  | [] => false
  | c :: cs => (c.isAlpha || c = '_') && cs.all isWordChar

/-- Embedding of transforms.canonical_name: strip a trailing .m.j2,
replace every non-word character by an underscore, and prepend an
underscore when the result is not an identifier. -/
def canonical_name (fname : Str) : Str :=
  let name := if pyEndsWith fname (chars ".m.j2") then fname.take (fname.length - 5)
              else fname
  let safe := name.map (fun c => if isWordChar c then c else '_')
  if identMatch safe then safe else '_' :: safe

/-- Embedding of dax.canonical_name: strip a trailing .dax, replace
every non-word character by an underscore, and prepend an underscore
when the result is not an identifier. -/
def canonical_name_dax (fname : Str) : Str :=
  let name := if pyEndsWith fname (chars ".dax") then fname.take (fname.length - 4)
              else fname
  let safe := name.map (fun c => if isWordChar c then c else '_')
  if identMatch safe then safe else '_' :: safe

/-- Regex helper: skip the maximal whitespace run. -/
def skipWs (s : Str) : Str := s.dropWhile pyIsSpace

/-- Regex helper: consume one given character. -/
def expectChar (c : Char) : Str → Option Str
  | [] => none
  | d :: ds => if d = c then some ds else none

/-- Regex helper: consume a literal case-insensitively (IGNORECASE). -/
def expectCI (lit : Str) (s : Str) : Option Str :=
  if (s.take lit.length).map Char.toLower = lit then some (s.drop lit.length)
  else none

/-- Regex helper: consume at least one whitespace character, then the
rest of the maximal whitespace run (greedy backslash-s-plus; the
following literal in every use starts with a non-whitespace character,
so the greedy run is the unique match). -/
def ws1 (s : Str) : Option Str :=
  match s with
  | [] => none
  | c :: cs => if pyIsSpace c then some (cs.dropWhile pyIsSpace) else none

/-- Regex helper: consume an identifier of the class
[A-Za-z_][A-Za-z0-9_]* greedily (the following pattern element in every
use starts with a non-word character, so the greedy run is the unique
match). -/
def expectIdent : Str → Option Str
  | [] => none
  | c :: cs => if c.isAlpha || c = '_' then some (cs.dropWhile isWordChar) else none

/-- Embedding of the transforms.SIG regex (IGNORECASE): an anchored
match of an optional whitespace run, an open parenthesis, an
identifier, the keyword as, the keyword table, a close parenthesis,
the keyword as, the keyword table, and finally either at least one
whitespace character or an immediate arrow token. The final
alternative mirrors the tail of the pattern, which succeeds exactly
when a whitespace character follows the second table keyword or the
arrow follows it immediately. -/
def matchesSIG (text : Str) : Bool :=
  (Option.isSome (do
    let s := skipWs text
    let s ← expectChar '(' s
    let s := skipWs s
    let s ← expectIdent s
    let s ← ws1 s
    let s ← expectCI (chars "as") s
    let s ← ws1 s
    let s ← expectCI (chars "table") s
    let s := skipWs s
    let s ← expectChar ')' s
    let s ← ws1 s
    let s ← expectCI (chars "as") s
    let s ← ws1 s
    let s ← expectCI (chars "table") s
    match s with
    | c :: cs => if pyIsSpace c then some cs
                 else if (chars "=>").isPrefixOf (c :: cs) then some cs else none
    | [] => none))

/-- The fixed suffix of the signature-validation error message. -/
def sigErrorSuffix : Str :=
  chars ": transform must start with \x27(t as table) as table =>\x27 or \x27(t as table) as table\x27 followed by newline"

/-- Embedding of transforms.validate_signature: raises a ValueError
naming the offending file when the SIG regex does not match. -/
def validate_signature (text fname : Str) : Except Str Unit :=
  if matchesSIG text then Except.ok ()
  else Except.error (fname ++ sigErrorSuffix)

/-- Python text.lstrip of the byte-order mark. -/
def stripBOM (text : Str) : Str := text.dropWhile (fun c => c = '\uFEFF')

/-- Embedding of transforms._normalize_transform: when the first line
is a signature without an arrow and the remainder mentions let, insert
the arrow after the signature line. -/
def normalize_transform (text : Str) : Str :=
  if !text.contains '\n' then text
  else
    let firstLine := text.takeWhile (fun c => c ≠ '\n')
    let rest := (text.dropWhile (fun c => c ≠ '\n')).drop 1
    if pyStartsWith (pyStrip firstLine) (chars "(")
        && !pyContains firstLine (chars "=>")
        && pyContains rest (chars "let") then
      firstLine ++ chars " =>" ++ [ '\n' ] ++ rest
    else text

/-- The text processing load_transforms applies to a file before the
signature check: strip the byte-order mark, normalize the transform. -/
def processTransformText (text : Str) : Str :=
  normalize_transform (stripBOM text)

/-- The inner file loop of transforms.load_transforms over one
directory: derive the canonical name, process and validate the text,
and record it unless the name was already claimed. -/
def load_transforms_files (files : List (Str × Str)) (merged : List (Str × Str)) :
    Except Str (List (Str × Str)) :=
  match files with
  | [] => Except.ok merged
  | (fname, text) :: rest =>
    let name := canonical_name fname
    let text := processTransformText text
    match validate_signature text fname with
    | Except.error e => Except.error e
    | Except.ok _ =>
      if merged.any (fun e => e.fst = name) then load_transforms_files rest merged
      else load_transforms_files rest (merged ++ [(name, text)])

/-- The directory loop of transforms.load_transforms. -/
def load_transforms_dirs (dirs : List (List (Str × Str)))
    (merged : List (Str × Str)) : Except Str (List (Str × Str)) :=
  match dirs with
  | [] => Except.ok merged
  | d :: rest =>
    match load_transforms_files d merged with
    | Except.error e => Except.error e
    | Except.ok m => load_transforms_dirs rest m

/-- Embedding of transforms.load_transforms (lines 106 to 140):
iterate the directories in reverse so that the first writer wins,
which makes later-listed directories override earlier ones. -/
def load_transforms (dirs : List (List (Str × Str))) :
    Except Str (List (Str × Str)) :=
  load_transforms_dirs dirs.reverse []

/-- The inner file loop of dax.load_dax_templates over one directory:
no signature validation, text stripped of byte-order mark and
surrounding whitespace. -/
def load_dax_files (files : List (Str × Str)) (merged : List (Str × Str)) :
    List (Str × Str) :=
  match files with
  | [] => merged
  | (fname, text) :: rest =>
    let name := canonical_name_dax fname
    let text := pyStrip (stripBOM text)
    if merged.any (fun e => e.fst = name) then load_dax_files rest merged
    else load_dax_files rest (merged ++ [(name, text)])

/-- The directory loop of dax.load_dax_templates. -/
def load_dax_dirs (dirs : List (List (Str × Str))) (merged : List (Str × Str)) :
    List (Str × Str) :=
  match dirs with
  | [] => merged
  | d :: rest => load_dax_dirs rest (load_dax_files d merged)

/-- Embedding of dax.load_dax_templates (lines 37 to 89): same
reverse-iteration precedence scheme as load_transforms, without the
signature gate. -/
def load_dax_templates (dirs : List (List (Str × Str))) : List (Str × Str) :=
  load_dax_dirs dirs.reverse []

/-- Python dict lookup on the association lists built by the loaders
(keys are unique by construction, so the first match is the entry). -/
def lookupStr (n : Str) (l : List (Str × Str)) : Option Str :=
  (l.find? (fun e => e.fst = n)).map (fun e => e.snd)

/-! ## Partition M-code generator (src/yaml2pbip/emit.py)

The generator is embedded as a function from the partition, table,
sources and transform mapping to the list of output lines (the string
result is their newline join). The Jinja templates for simple sources
live outside src and are passed as an abstract template function. -/

/-- Embedding of spec.py SourceOptions (only the field the generator
reads). -/
structure SourceOptions where
  queryTag : Option Str := none
deriving DecidableEq

/-- Embedding of spec.py Source (the fields the generator reads). -/
structure Source where
  kind : Str
  server : Option Str := none
  warehouse : Option Str := none
  database : Option Str := none
  role : Option Str := none
  options : Option SourceOptions := none
deriving DecidableEq

/-- Embedding of spec.py Column (the fields the generator reads). -/
structure Column where
  name : Str
  dataType : Str
deriving DecidableEq

/-- Embedding of spec.py Table (the fields the generator reads).
sourceUse models the pass-through source mapping: none when table.source
is absent or falsy, some u when it is a non-empty mapping whose use key
holds u (u itself none models a mapping without a use key). -/
structure Table where
  name : Str
  column_policy : Str := chars "keep_all"
  columns : List Column := []
  partitions : List Partition := []
  sourceUse : Option (Option Str) := none
deriving DecidableEq

/-- Rendering of an optional string in a Python f-string: None prints
as the text None. -/
def pyFStr : Option Str → Str
  | none => chars "None"
  | some s => s

/-- The navigation database of an optional navigation value, used for
the Python truthiness test nav and nav.database. -/
def navDatabase : Option Navigation → Option Str
  | none => none
  | some nv => nv.database

/-- Embedding of the _build_snowflake_call closure in
emit.generate_partition_mcode (lines 164 to 187): server, optional
warehouse as the second positional argument, and a trailing options
record assembled from the subset of role and query tag that are set,
omitted entirely when empty. -/
def build_snowflake_call (src : Source) : Str :=
  let opts : List Str :=
    (if optStrTruthy src.role then
        [chars "Role = \"" ++ src.role.getD [] ++ chars "\""] else []) ++
    (if (match src.options with
         | some o => optStrTruthy o.queryTag
         | none => false) then
        [chars "QueryTag = \"" ++
          ((match src.options with
            | some o => o.queryTag
            | none => none).getD []) ++ chars "\""] else [])
  if optStrTruthy src.warehouse then
    if !opts.isEmpty then
      chars "Snowflake.Databases(\"" ++ pyFStr src.server ++ chars "\", \"" ++
        src.warehouse.getD [] ++ chars "\", [" ++ pyJoin (chars ", ") opts ++ chars "])"
    else
      chars "Snowflake.Databases(\"" ++ pyFStr src.server ++ chars "\", \"" ++
        src.warehouse.getD [] ++ chars "\")"
  else
    if !opts.isEmpty then
      chars "Snowflake.Databases(\"" ++ pyFStr src.server ++ chars "\", [" ++
        pyJoin (chars ", ") opts ++ chars "])"
    else
      chars "Snowflake.Databases(\"" ++ pyFStr src.server ++ chars "\")"

/-- The two database-navigation lines emitted by the _resolve_db
closure for a given database name. -/
def dbNavLines (source : Source) (database : Str) : List Str :=
  [chars "  SourceColl = " ++ build_snowflake_call source ++ chars ",",
   chars "  DB = SourceColl\x7b[Name = \"" ++ database ++
     chars "\", Kind = \"Database\"]\x7d[Data],"]

/-- Embedding of the _resolve_db closure in
emit.generate_partition_mcode (lines 332 to 354): the partition
navigation database wins, else the source default database, else an
error when a navigation database is required, else no lines. The
collection binding and the name-filter binding are always emitted
together whenever a database is determined. -/
def resolve_db (partitionName : Str) (source : Source) (sourceKey : Str)
    (nav : Option Navigation) (requireNavDb : Bool) : Except Str (List Str) :=
  if optStrTruthy (navDatabase nav) then
    Except.ok (dbNavLines source ((navDatabase nav).getD []))
  else if optStrTruthy source.database then
    Except.ok (dbNavLines source (source.database.getD []))
  else if requireNavDb then
    Except.error (chars "Source \x27" ++ sourceKey ++
      chars "\x27 does not define a database; partition \x27" ++ partitionName ++
      chars "\x27 must specify navigation.database")
  else Except.ok []

/-- Embedding of source_resolver.resolve_database_navigation (lines 165
to 191). The inline connection call comes from Jinja templates that are
not part of the sources under src (generate_inline_source_mcode), so it
is taken as the abstract argument connCall. -/
def resolve_database_navigation (connCall : Str) (database : Option Str) : List Str :=
  if !optStrTruthy database then []
  else
    [chars "  SourceColl = " ++ connCall ++ chars ",",
     chars "  DB = SourceColl\x7b[Name = \"" ++ database.getD [] ++
       chars "\", Kind = \"Database\"]\x7d[Data],"]

/-- Embedding of builder._add_database_navigation (mcode/builder.py
lines 107 to 126): pick the navigation database, else the source
default, else fail when a native query is present, else emit nothing. -/
def builder_add_database_navigation (partition : Partition) (sourceKey : Str)
    (source : Source) (connCall : Str) : Except Str (List Str) :=
  if optStrTruthy (navDatabase partition.navigation) then
    Except.ok (resolve_database_navigation connCall (navDatabase partition.navigation))
  else if optStrTruthy source.database then
    Except.ok (resolve_database_navigation connCall source.database)
  else if optStrTruthy partition.nativeQuery then
    Except.error (chars "Cannot run nativeQuery for partition \x27" ++ partition.name ++
      chars "\x27: source \x27" ++ sourceKey ++
      chars "\x27 has no database and partition has no navigation.database")
  else Except.ok []

/-- Embedding of emit._map_datatype_to_m (lines 597 to 618). -/
def map_datatype_to_m (datatype : Str) : Str :=
  if datatype = chars "int64" then chars "Int64.Type"
  else if datatype = chars "decimal" then chars "Number.Type"
  else if datatype = chars "double" then chars "Number.Type"
  else if datatype = chars "boolean" then chars "Logical.Type"
  else if datatype = chars "string" then chars "Text.Type"
  else if datatype = chars "date" then chars "Date.Type"
  else if datatype = chars "dateTime" then chars "DateTime.Type"
  else if datatype = chars "time" then chars "Time.Type"
  else if datatype = chars "currency" then chars "Currency.Type"
  else if datatype = chars "variant" then chars "Any.Type"
  else chars "Any.Type"

/-- Regex helper: consume a case-sensitive literal. -/
def expectLit (lit : Str) (s : Str) : Option Str :=
  if lit.isPrefixOf s then some (s.drop lit.length) else none

/-- Regex helper: capture a maximal non-empty word-character run and
return it with the rest (greedy backslash-w-plus; the following element
in every use starts with a non-word character). -/
def takeWord1 : Str → Option (Str × Str)
  | [] => none
  | c :: cs =>
    if isWordChar c then
      some ((c :: cs).takeWhile isWordChar, (c :: cs).dropWhile isWordChar)
    else none

/-- Regex helper: consume a maximal non-empty run of characters
satisfying the predicate (greedy positive class; the following element
in every use is excluded from the class, so the greedy run is the
unique match). -/
def take1While (p : Char → Bool) : Str → Option Str
  | [] => none
  | c :: cs => if p c then some (cs.dropWhile p) else none

/-- Embedding of the _extract_param_name closure (emit.py lines 189 to
196): re.match of an anchored optional whitespace run, an open
parenthesis, a captured word run, whitespace, the literal as and
whitespace; yields the captured run, or the fallback name t. -/
def extract_param_name (code : Str) : Str :=
  match (do
    let s := skipWs code
    let s ← expectChar '(' s
    let s := skipWs s
    let (w, s) ← takeWord1 s
    let s ← ws1 s
    let s ← expectLit (chars "as") s
    let _ ← ws1 s
    pure w : Option Str) with
  | some w => w
  | none => chars "t"

/-- One attempted match of the signature-stripping regex of
_extract_transform_body at a fixed start position: an open parenthesis,
optional whitespace, the literal parameter name, whitespace, the
literal as, whitespace, a non-empty run of characters other than the
close parenthesis, the close parenthesis, whitespace, the literal as,
whitespace, a word run, optional whitespace, an optional arrow and
optional whitespace; what remains is the captured body (the dot-all
group captures the entire remainder). -/
def stripSigAt (param : Str) (s : Str) : Option Str := do
  let s ← expectChar '(' s
  let s := skipWs s
  let s ← expectLit param s
  let s ← ws1 s
  let s ← expectLit (chars "as") s
  let s ← ws1 s
  let s ← take1While (fun c => c ≠ ')') s
  let s ← expectChar ')' s
  let s ← ws1 s
  let s ← expectLit (chars "as") s
  let s ← ws1 s
  let s ← take1While isWordChar s
  let s := skipWs s
  let s := if (chars "=>").isPrefixOf s then skipWs (s.drop 2) else s
  pure s

/-- re.search of the signature-stripping regex: try each start position
from the left (the pattern begins with a literal open parenthesis). -/
def stripSigSearch (param : Str) : Str → Option Str
  | [] => none
  | c :: cs =>
    match stripSigAt param (c :: cs) with
    | some r => some r
    | none => stripSigSearch param cs

/-- First whole-word case-insensitive occurrence of a word (used for
the backslash-b let backslash-b search); returns start and end
positions. The scan carries whether the previous character was a word
character. -/
def findWordCIFirst (w : Str) : Str → Nat → Bool → Option (Nat × Nat)
  | [], _, _ => none
  | c :: cs, i, prevWord =>
    if !prevWord && (((c :: cs).take w.length).map Char.toLower = w)
        && !headIsWordChar ((c :: cs).drop w.length) then
      some (i, i + w.length)
    else findWordCIFirst w cs (i + 1) (isWordChar c)

/-- Last match of the pattern newline, optional whitespace, whole-word
in (case-insensitive), scanning leftmost non-overlapping matches as
re.finditer does and keeping the last; returns start (at the newline)
and end (after the in) positions. The fuel argument only serves
termination; each step consumes at least one character. -/
def scanNlIn : Nat → Str → Nat → Option (Nat × Nat) → Option (Nat × Nat)
  | 0, _, _, best => best
  | _ + 1, [], _, best => best
  | fuel + 1, c :: cs, i, best =>
    if c = '\n' then
      let k := (cs.takeWhile pyIsSpace).length
      let after := cs.drop k
      if ((after.take 2).map Char.toLower = chars "in")
          && !headIsWordChar (after.drop 2) then
        scanNlIn fuel (after.drop 2) (i + 1 + k + 2) (some (i, i + 1 + k + 2))
      else scanNlIn fuel cs (i + 1) best
    else scanNlIn fuel cs (i + 1) best

/-- Last whole-word case-insensitive occurrence of a word (the fallback
backslash-b in backslash-b finditer), scanning leftmost non-overlapping
matches and keeping the last. The fuel argument only serves
termination. -/
def scanWordCILast (w : Str) : Nat → Str → Nat → Bool → Option (Nat × Nat) →
    Option (Nat × Nat)
  | 0, _, _, _, best => best
  | _ + 1, [], _, _, best => best
  | fuel + 1, c :: cs, i, prevWord, best =>
    if !prevWord && (((c :: cs).take w.length).map Char.toLower = w)
        && !headIsWordChar ((c :: cs).drop w.length) then
      scanWordCILast w fuel ((c :: cs).drop w.length) (i + w.length) true
        (some (i, i + w.length))
    else scanWordCILast w fuel cs (i + 1) (isWordChar c) best

/-- Number of occurrences of a character in a string. -/
def countChar (c : Char) (s : Str) : Nat := (s.filter (fun d => d = c)).length

/-- The nesting-level delta of one stripped line: opening parentheses,
braces and brackets minus closing ones. -/
def nestingDelta (stripped : Str) : Int :=
  ((countChar '(' stripped + countChar '\x7b' stripped + countChar '[' stripped : Nat) : Int)
  - ((countChar ')' stripped + countChar '\x7d' stripped + countChar ']' stripped : Nat) : Int)

/-- State of the definition-splitting loop inside
_extract_transform_body. -/
structure DefState where
  acc : List Str
  cur : List Str
  inDef : Bool
  nesting : Int
deriving DecidableEq

/-- One line of the definition-splitting loop of
_extract_transform_body (emit.py lines 266 to 301): skip empty lines,
keep comment lines inside the current definition, open a definition at
a line containing an equals sign, accumulate continuation lines, track
bracket nesting, and close the definition at a trailing comma at
nesting level zero. -/
def defLineStep (st : DefState) (line : Str) : DefState :=
  let stripped := pyStrip line
  if stripped.isEmpty then st
  else if pyStartsWith stripped (chars "//") then
    if st.inDef then { st with cur := st.cur ++ [line] } else st
  else
    let st :=
      if stripped.contains '=' && !st.inDef then
        { st with inDef := true, cur := st.cur ++ [line],
                  nesting := st.nesting + nestingDelta stripped }
      else if st.inDef then
        { st with cur := st.cur ++ [line],
                  nesting := st.nesting + nestingDelta stripped }
      else st
    if st.inDef && st.nesting = 0 && pyEndsWith stripped (chars ",") then
      { acc := st.acc ++ [pyJoin [ '\n' ] st.cur], cur := [], inDef := false,
        nesting := st.nesting }
    else st

/-- The definition-splitting loop over the lines of the section between
let and in, including the trailing flush of an open definition. -/
def parseVarDefs (lines : List Str) : List Str :=
  let st := lines.foldl defLineStep { acc := [], cur := [], inDef := false, nesting := 0 }
  if st.cur.isEmpty then st.acc else st.acc ++ [pyJoin [ '\n' ] st.cur]

/-- Embedding of the _extract_transform_body closure (emit.py lines 198
to 307): strip the lambda signature, locate the outermost let and the
last in, split the section between them into variable definitions, and
return them with the final returned expression. Without a signature
match the whole code is returned; without a let or an in the stripped
body is returned as the final expression with no definitions. -/
def extract_transform_body (code param : Str) : List Str × Str :=
  match stripSigSearch param code with
  | none => ([], code)
  | some rest =>
    let body := pyStrip rest
    match findWordCIFirst (chars "let") body 0 false with
    | none => ([], body)
    | some letMatch =>
      let inMatch :=
        match scanNlIn (body.length + 1) body 0 none with
        | some m => some m
        | none => scanWordCILast (chars "in") (body.length + 1) body 0 false none
      match inMatch with
      | none => ([], body)
      | some inM =>
        let defsSection := pyStrip ((body.drop letMatch.snd).take (inM.fst - letMatch.snd))
        let finalSection := pyStrip (body.drop inM.snd)
        (parseVarDefs (pySplitChar '\n' defsSection), finalSection)

/-- Space or tab, the indentation characters textwrap.dedent reasons
about. -/
def isIndentChar (c : Char) : Bool := c = ' ' || c = '\t'

/-- Longest common prefix of two character lists. -/
def commonPrefix : Str → Str → Str
  | [], _ => []
  | _, [] => []
  | a :: as, b :: bs => if a = b then a :: commonPrefix as bs else []

/-- Embedding of textwrap.dedent: blank out whitespace-only lines,
compute the longest common prefix of the indentation of all content
lines, and remove it from the start of every line carrying it. -/
def pyDedent (text : Str) : Str :=
  let ls := pySplitChar '\n' text
  let ls := ls.map (fun l => if !l.isEmpty && l.all isIndentChar then [] else l)
  let indents := ls.filterMap (fun l =>
    if (l.dropWhile isIndentChar).isEmpty then none
    else some (l.takeWhile isIndentChar))
  let margin :=
    match indents with
    | [] => []
    | i0 :: rest => rest.foldl commonPrefix i0
  pyJoin [ '\n' ] (ls.map (fun l =>
    if margin.isPrefixOf l then l.drop margin.length else l))

/-- The re-indentation step of _emit_sequential_steps (emit.py lines
415 to 427): dedent the injected definition, give the first line a
two-space indent and continuation lines a four-space indent. -/
def reindentDef (injected : Str) : Str :=
  let defLines := pySplitChar '\n' (pyDedent injected)
  pyJoin [ '\n' ] (defLines.enum.map (fun e =>
    if e.fst = 0 then chars "  " ++ e.snd else chars "    " ++ e.snd))

/-- re.match of optional whitespace, a captured word run, optional
whitespace and an equals sign, used to read the bound variable name
from an injected definition. -/
def matchVarName (s : Str) : Option Str := do
  let s2 := skipWs s
  let (w, rest) ← takeWord1 s2
  let rest := skipWs rest
  let _ ← expectChar '=' rest
  pure w

/-- The Python append of a comma to the last line when it does not
already end with one (emit.py: if not lines[-1].strip().endswith(','):
lines[-1] = lines[-1] + ','). -/
def ensureLastComma (lines : List Str) : List Str :=
  match lines.getLast? with
  | none => lines
  | some last =>
    if pyEndsWith (pyStrip last) (chars ",") then lines
    else lines.dropLast ++ [last ++ chars ","]

/-- The Python strip of the trailing comma from the last line (emit.py:
if ... lines[-1].strip().endswith(','): lines[-1] =
lines[-1].rstrip(',')). -/
def stripFinalComma (lines : List Str) : List Str :=
  match lines.getLast? with
  | none => lines
  | some last =>
    if pyEndsWith (pyStrip last) (chars ",") then
      lines.dropLast ++ [pyRStripChar ',' last]
    else lines

/-- The inner loop over a transform's variable definitions (emit.py
lines 411 to 449): substitute the parameter by the transform's input
variable, dedent and re-indent, strip the trailing comma, append with a
comma unless this is the last definition of the last transform, and on
the last definition advance the current variable to the bound name read
from the injected definition. -/
def injectDefsLoop (paramName inputVar : Str) (isLastTransform : Bool) :
    List Str → List Str → Str → List Str × Str
  | [], lines, curr => (lines, curr)
  | d :: rest, lines, curr =>
    let isLastDef := rest.isEmpty
    let injected := pyRStripChar ',' (pyRStrip (reindentDef
      (replaceParamInBody d paramName inputVar)))
    let lines := if isLastDef && isLastTransform then lines ++ [injected]
                 else lines ++ [injected ++ chars ","]
    let curr := if isLastDef then
                  (match matchVarName injected with
                   | some w => w
                   | none => curr)
                else curr
    injectDefsLoop paramName inputVar isLastTransform rest lines curr

/-- The per-step loop of _emit_sequential_steps (emit.py lines 378 to
451): look up the snippet body, extract the parameter name and the
body, ensure the previous line ends with a comma, then either bind the
substituted single expression under a variable derived from the step
name and its one-based position, or inject the flattened variable
definitions of a let block. -/
def emitSeqStepsLoop (transforms : List (Str × Str)) (total : Nat) :
    List Str → Nat → List Str → Str → Except Str (List Str × Str)
  | [], _, lines, curr => Except.ok (lines, curr)
  | stepName :: rest, idx, lines, curr =>
    match lookupStr stepName transforms with
    | none => Except.error (chars "Transform \x27" ++ stepName ++
        chars "\x27 not found in transforms")
    | some code =>
      let transformCode := pyStrip code
      let paramName := extract_param_name transformCode
      let vd := extract_transform_body transformCode paramName
      let lines := ensureLastComma lines
      if vd.fst.isEmpty then
        let varName := chars "__" ++ stepName ++ chars "_" ++ chars (toString idx)
        let expression := replaceParamInBody vd.snd paramName curr
        let lines :=
          if idx = total then
            lines ++ [chars "  " ++ varName ++ chars " = " ++ expression]
          else
            lines ++ [chars "  " ++ varName ++ chars " = " ++ expression ++ chars ","]
        emitSeqStepsLoop transforms total rest (idx + 1) lines varName
      else
        let lc := injectDefsLoop paramName curr (idx = total) vd.fst lines curr
        emitSeqStepsLoop transforms total rest (idx + 1) lc.fst lc.snd

/-- Embedding of the _emit_sequential_steps closure (emit.py lines 356
to 451), acting on the accumulated lines and the current seed
variable. -/
def emit_sequential_steps (transforms : List (Str × Str)) (steps : List Str)
    (lines : List Str) (seed : Str) : Except Str (List Str × Str) :=
  if steps.isEmpty then Except.ok (lines, seed)
  else emitSeqStepsLoop transforms steps.length steps 1 lines seed

/-- The column-projection line, over the given base variable. -/
def selectColumnsLine (baseVar : Str) (declaredCols : List (Str × Str)) : Str :=
  chars "  Selected = Table.SelectColumns(" ++ baseVar ++ chars ", \x7b" ++
    pyJoin (chars ", ") (declaredCols.map (fun c => chars "\"" ++ c.fst ++ chars "\"")) ++
    chars "\x7d, MissingField.UseNull),"

/-- The bulk type-coercion line, over the given seed variable. -/
def typedLine (seedVar : Str) (declaredCols : List (Str × Str)) : Str :=
  chars "  Typed = Table.TransformColumnTypes(" ++ seedVar ++ chars ", \x7b" ++
    pyJoin (chars ", ") (declaredCols.map (fun c =>
      chars "\x7b\"" ++ c.fst ++ chars "\", " ++ map_datatype_to_m c.snd ++ chars "\x7d")) ++
    chars "\x7d),"

/-- Python repr of a list of strings, as interpolated into the
missing-transforms error message (names are identifiers, so the repr
uses plain single quotes). -/
def pyReprStrList (xs : List Str) : Str :=
  chars "[" ++ pyJoin (chars ", ")
    (xs.map (fun s => chars "\x27" ++ s ++ chars "\x27")) ++ chars "]"

/-- The no-source error message of generate_partition_mcode. -/
def noSourceMsg (p : Partition) (t : Table) : Str :=
  chars "Partition " ++ p.name ++ chars " in table " ++ t.name ++
    chars " has no source specified"

/-- The source-key resolution at the top of generate_partition_mcode
(emit.py lines 144 to 150): the partition use field, else the table
source mapping's use value; a missing or empty key is an error. -/
def resolveSourceKey (p : Partition) (t : Table) : Except Str Str :=
  let sourceKey := p.use
  let sourceKey :=
    if !optStrTruthy sourceKey then
      match t.sourceUse with
      | some u => u
      | none => sourceKey
    else sourceKey
  match sourceKey with
  | some s => if s.isEmpty then Except.error (noSourceMsg p t) else Except.ok s
  | none => Except.error (noSourceMsg p t)

/-- Python dict lookup of a source by key. -/
def lookupSource (sources : List (Str × Source)) (k : Str) : Option Source :=
  (sources.find? (fun e => e.fst = k)).map (fun e => e.snd)

/-- One line of the simple-source template parsing loop inside
generate_partition_mcode (emit.py lines 544 to 564), over the state of
accumulated lines, the inside-definitions flag and the final variable
seen so far. -/
def simpleSourceStep (st : List Str × Bool × Option Str) (line : Str) :
    List Str × Bool × Option Str :=
  let stripped := pyStrip line
  if stripped = chars "let" then (st.fst, true, st.snd.snd)
  else if pyStartsWith stripped (chars "in") then (st.fst, false, st.snd.snd)
  else if !st.snd.fst && st.snd.snd.isNone && !stripped.isEmpty then
    (st.fst, st.snd.fst, some stripped)
  else if st.snd.fst && !stripped.isEmpty then
    let normalized := pyStrip (pyReplace line (chars "\t") (chars "  "))
    if !pyEndsWith normalized (chars ",") then
      (st.fst ++ [chars "  " ++ normalized ++ chars ","], st.snd.fst, st.snd.snd)
    else
      (st.fst ++ [chars "  " ++ normalized], st.snd.fst, st.snd.snd)
  else st

/-- The optional column-projection stage of the shared generator tail:
under the select_only policy with declared columns, append the
projection line and advance the seed to Selected. -/
def mcodeSelect (table : Table) (declaredCols : List (Str × Str))
    (lines : List Str) (baseVar : Str) : List Str × Str :=
  if table.column_policy = chars "select_only" ∧ declaredCols ≠ [] then
    (lines ++ [selectColumnsLine baseVar declaredCols], chars "Selected")
  else (lines, baseVar)

/-- The optional bulk type-coercion stage of the shared generator tail:
with declared columns, ensure the previous line ends with a comma,
append the coercion line and advance the seed to Typed. -/
def mcodeTyped (declaredCols : List (Str × Str)) (ls : List Str × Str) :
    List Str × Str :=
  if declaredCols ≠ [] then
    (ensureLastComma ls.fst ++ [typedLine ls.snd declaredCols], chars "Typed")
  else ls

/-- The finalization of the generated lines: strip the trailing comma
from the last binding when there are no custom transforms, and append
the terminal return clause naming the final seed variable. -/
def mcodeFinalize (partition : Partition) (lf : List Str × Str) : List Str :=
  (if partition.custom_steps.isEmpty then stripFinalComma lf.fst else lf.fst) ++
    [chars "in", chars "  " ++ lf.snd]

/-- The shared tail of every branch of generate_partition_mcode after
the seed variable is established by the connection stage: optional
column projection under the select_only policy, optional bulk type
coercion, sequential custom transforms, the strip of the trailing
comma when there are no transforms, and the terminal return clause. -/
def mcodeTail (partition : Partition) (table : Table)
    (declaredCols : List (Str × Str)) (transforms : List (Str × Str))
    (lines : List Str) (baseVar : Str) : Except Str (List Str) := do
  let ls := mcodeTyped declaredCols (mcodeSelect table declaredCols lines baseVar)
  let lf ← emit_sequential_steps transforms partition.custom_steps ls.fst ls.snd
  pure (mcodeFinalize partition lf)

/-- The up-front reference check of generate_partition_mcode (emit.py
lines 319 to 330): when the partition references custom steps, collect
every referenced name missing from the transform mapping in one pass
and fail listing them all. -/
def missingTransformsGate (partition : Partition) (table : Table)
    (transforms : List (Str × Str)) : Except Str Unit :=
  if !partition.custom_steps.isEmpty then
    let missing := partition.custom_steps.filter
      (fun nm => !(transforms.any (fun e => e.fst = nm)))
    if !missing.isEmpty then
      Except.error (chars "Partition \x27" ++ partition.name ++
        chars "\x27 in table \x27" ++ table.name ++
        chars "\x27 references unknown transforms: " ++ pyReprStrList missing)
    else Except.ok ()
  else Except.ok ()

/-- The navigation branch of generate_partition_mcode (emit.py lines
454 to 488): database resolution with a required database, then the
schema and table lookups, then the shared tail. -/
def navigationBranch (partition : Partition) (table : Table)
    (declaredCols : List (Str × Str)) (transforms : List (Str × Str))
    (sKey : Str) (source : Source) (nav : Navigation) : Except Str (List Str) := do
  let dbLines ← resolve_db partition.name source sKey (some nav) true
  let lines := [chars "let"] ++ dbLines ++
    [chars "  SCH = DB\x7b[Name = \"" ++ nav.schema_ ++
       chars "\", Kind = \"Schema\"]\x7d[Data],",
     chars "  TBL = SCH\x7b[Name = \"" ++ nav.table ++
       chars "\", Kind = \"Table\"]\x7d[Data],"]
  mcodeTail partition table declaredCols transforms lines (chars "TBL")

/-- The native-query branch of generate_partition_mcode (emit.py lines
490 to 529): escape embedded quotes, resolve the database without
requiring one, fail when no database binding was produced, else execute
the query against it and run the shared tail. -/
def nativeQueryBranch (partition : Partition) (table : Table)
    (declaredCols : List (Str × Str)) (transforms : List (Str × Str))
    (sKey : Str) (source : Source) : Except Str (List Str) := do
  let sql := pyReplace (pyStrip (partition.nativeQuery.getD []))
    (chars "\"") (chars "\\\"")
  let dbLines ← resolve_db partition.name source sKey partition.navigation false
  let lines := [chars "let"] ++ dbLines
  if !(lines.any (fun l => pyStartsWith (pyStrip l) (chars "DB ="))) then
    Except.error (chars "Cannot run nativeQuery for partition \x27" ++
      partition.name ++ chars "\x27: source \x27" ++ sKey ++
      chars "\x27 has no database and partition has no navigation.database")
  else
    let lines := lines ++ [chars "  Result = Value.NativeQuery(DB, \"" ++ sql ++
      chars "\", null, [EnableFolding = true]),"]
    mcodeTail partition table declaredCols transforms lines (chars "Result")

/-- The simple-source branch of generate_partition_mcode (emit.py lines
531 to 591): render the source template, inline its variable
definitions, seed from its final variable (with the Sheet fallback) and
run the shared tail. -/
def simpleSourceBranch (partition : Partition) (table : Table)
    (declaredCols : List (Str × Str)) (transforms : List (Str × Str))
    (sKey : Str) (source : Source) (sourceTemplate : Source → Str → Str) :
    Except Str (List Str) :=
  let sourceMcode := sourceTemplate source sKey
  let sourceLines := pySplitChar '\n' (pyStrip sourceMcode)
  let st := sourceLines.foldl simpleSourceStep ([chars "let"], false, none)
  let seed :=
    match st.snd.snd with
    | some v => if v.isEmpty then chars "Sheet" else v
    | none => chars "Sheet"
  mcodeTail partition table declaredCols transforms st.fst seed

/-- Embedding of emit.generate_partition_mcode (emit.py lines 138 to
593), producing the list of output lines; the emitted string is their
newline join. The sourceTemplate argument stands for
generate_source_mcode, whose Jinja templates are not part of the
sources under src. -/
def generate_partition_mcode_lines (partition : Partition) (table : Table)
    (sources : List (Str × Source)) (transforms : List (Str × Str))
    (sourceTemplate : Source → Str → Str) : Except Str (List Str) := do
  let sKey ← resolveSourceKey partition table
  let source ←
    match lookupSource sources sKey with
    | some s => Except.ok s
    | none => Except.error (chars "Source " ++ sKey ++ chars " not found in sources")
  let declaredCols := table.columns.map (fun c => (c.name, c.dataType))
  let _ ← missingTransformsGate partition table transforms
  match partition.navigation with
  | some nav =>
    navigationBranch partition table declaredCols transforms sKey source nav
  | none =>
    if optStrTruthy partition.nativeQuery then
      nativeQueryBranch partition table declaredCols transforms sKey source
    else
      simpleSourceBranch partition table declaredCols transforms sKey source
        sourceTemplate

/-- The emitted partition expression: the newline join of the generated
lines. -/
def generate_partition_mcode (partition : Partition) (table : Table)
    (sources : List (Str × Source)) (transforms : List (Str × Str))
    (sourceTemplate : Source → Str → Str) : Except Str Str :=
  (generate_partition_mcode_lines partition table sources transforms
    sourceTemplate).map (pyJoin [ '\n' ])

/-- Embedding of utils.remove_trailing_comma: strip trailing whitespace
and one trailing comma when present, else leave the line unchanged. -/
def remove_trailing_comma (line : Str) : Str :=
  let stripped := pyRStrip line
  if pyEndsWith stripped (chars ",") then stripped.dropLast else line

/-- Embedding of MCodePartitionBuilder.build (mcode/builder.py lines
408 to 431) on the accumulated state: fail when no seed variable was
ever established, else strip the trailing comma from the last line,
append the terminal return clause and join. -/
def builder_build (partitionName : Str) (lines : List Str) (seedVar : Option Str) :
    Except Str Str :=
  if !optStrTruthy seedVar then
    Except.error (chars "No data source configured for partition " ++ partitionName)
  else
    let lines :=
      match lines.getLast? with
      | some last =>
        if pyEndsWith (pyStrip last) (chars ",") then
          lines.dropLast ++ [remove_trailing_comma last]
        else lines
      | none => lines
    let lines := lines ++ [chars "in", chars "  " ++ seedVar.getD []]
    Except.ok (pyJoin [ '\n' ] lines)

/-! ## Theorems for claims C3, C4, C10 -/

/-- A concrete import-mode partition that supplies both a navigation
target and a raw native query. -/
def partitionBothNavAndQuery : Partition :=
  { name := chars "P", mode := chars "import", use := some (chars "src"),
    navigation := some { database := some (chars "D"), schema_ := chars "S",
                         table := chars "T" },
    nativeQuery := some (chars "SELECT 1") }

/-- C3 counterexample: an import-mode partition that supplies both a
navigation target and a raw query passes construction-time validation,
so validation does not enforce that exactly one of navigation target,
raw query and pass-through mode applies. -/
theorem C3_counterexample :
    validate_partition_type partitionBothNavAndQuery =
      Except.ok partitionBothNavAndQuery := by
  rfl

/-- C3 (amended): construction-time validation accepts a partition iff
a directLake partition supplies all three entity fields and references
neither navigation nor a raw query, and a partition of any other mode
supplies a source reference and none of the entity fields; supplying
both a navigation target and a raw query on an import or directquery
partition is not rejected. -/
theorem C3_partition_validation (p : Partition) :
    validate_partition_type p = Except.ok p ↔
      ((p.mode = chars "directLake" →
          optStrTruthy p.entityName = true ∧ optStrTruthy p.schemaName = true ∧
          optStrTruthy p.expressionSource = true ∧ p.navigation = none ∧
          optStrTruthy p.nativeQuery = false) ∧
       (p.mode ≠ chars "directLake" →
          optStrTruthy p.use = true ∧ optStrTruthy p.entityName = false ∧
          optStrTruthy p.schemaName = false ∧
          optStrTruthy p.expressionSource = false)) := by
  by_cases h : p.mode = chars "directLake"
  · cases hE : optStrTruthy p.entityName <;> cases hS : optStrTruthy p.schemaName <;>
      cases hX : optStrTruthy p.expressionSource <;>
      cases hN : optStrTruthy p.nativeQuery <;> cases hNav : p.navigation <;>
      simp [validate_partition_type, h, hE, hS, hX, hN, hNav]
  · cases hU : optStrTruthy p.use <;> cases hE : optStrTruthy p.entityName <;>
      cases hS : optStrTruthy p.schemaName <;>
      cases hX : optStrTruthy p.expressionSource <;>
      simp [validate_partition_type, h, hU, hE, hS, hX]

/-- C4: base-measure expansion. First, the concrete mapping from the
specification expands into exactly the three expected measures in
insertion order. Second, for every non-empty base_measures mapping the
resulting measure list is the generated measures followed by the
explicitly authored ones (explicit measures appended after, no
deduplication). Third, in list form with an explicitly authored measure
named sum_a, the generated sum_a and the explicit one coexist. -/
theorem C4_base_measure_expansion :
    (generate_measures_from_base
        [(chars "sum", chars "t.a, t.b"), (chars "avg", chars "c.r")] =
      [{ name := chars "sum_a", expression := chars "SUM(\x27t\x27[a])" },
       { name := chars "sum_b", expression := chars "SUM(\x27t\x27[b])" },
       { name := chars "avg_r", expression := chars "AVERAGE(\x27c\x27[r])" }])
    ∧ (∀ b ex, b ≠ [] →
        populate_measures (some (.dictForm b)) ex =
          generate_measures_from_base b ++ ex)
    ∧ (populate_measures
          (some (.listForm [[(chars "sum", chars "t.a, t.b")],
                            [(chars "avg", chars "c.r")]]))
          [{ name := chars "sum_a", expression := chars "CALC()" }] =
        [{ name := chars "sum_a", expression := chars "SUM(\x27t\x27[a])" },
         { name := chars "sum_b", expression := chars "SUM(\x27t\x27[b])" },
         { name := chars "avg_r", expression := chars "AVERAGE(\x27c\x27[r])" },
         { name := chars "sum_a", expression := chars "CALC()" }]) := by
  refine ⟨by decide, ?_, by decide⟩
  intro b ex hb
  have hbe : b.isEmpty = false := by
    cases b with
    | nil => exact absurd rfl hb
    | cons x xs => rfl
  cases b with
  | nil => exact absurd rfl hb
  | cons x xs => simp [populate_measures, normalizeBaseMeasures, hbe]

/-- C4 witness: the general append-after conjunct applied to a concrete
non-empty mapping. -/
theorem C4_base_measure_expansion_witness :
    populate_measures (some (.dictForm [(chars "sum", chars "q")])) [] =
      generate_measures_from_base [(chars "sum", chars "q")] ++ [] :=
  C4_base_measure_expansion.2.1 [(chars "sum", chars "q")] [] (by decide)

/-- C10 counterexample: a partition entry that supplies an empty name
does not keep it; the empty supplied name is replaced by the defaulted
table-derived name. -/
theorem C10_counterexample :
    populate_partitions (some (chars "t"))
        (some (.listOf [{ name := some [] }])) =
      [{ name := some (chars "T") }] ∧ some ([] : Str) ≠ some (chars "T") := by
  decide

/-- C10 (amended): an entry whose name is missing or empty is assigned
the default name (table name upper-cased with spaces replaced by
underscores, or PARTITION when the table name is not a string); an
entry that supplies a non-empty name keeps it unchanged; a single
mapping is normalized into a one-element list. -/
theorem C10_partition_name_defaulting (tn : Option Str) (p : PartEntry) :
    ((p.name = none ∨ p.name = some []) →
        fillPartitionName tn p = { p with name := some (defaultPartitionName tn) }) ∧
    (∀ s, p.name = some s → s ≠ [] → fillPartitionName tn p = p) ∧
    (populate_partitions tn (some (.single p)) = [fillPartitionName tn p]) ∧
    (∀ ps, populate_partitions tn (some (.listOf ps)) =
        ps.map (fillPartitionName tn)) ∧
    (defaultPartitionName (some (chars "my table")) = chars "MY_TABLE") ∧
    (defaultPartitionName none = chars "PARTITION") := by
  refine ⟨?_, ?_, rfl, fun ps => rfl, by decide, by decide⟩
  · rintro (h | h) <;> simp [fillPartitionName, h]
  · intro s hs hne
    have : s.isEmpty = false := by
      cases s with
      | nil => exact absurd rfl hne
      | cons c cs => rfl
    simp [fillPartitionName, hs, this]

/-- C10 witness: the keep-unchanged conjunct applied to an entry with a
concrete non-empty supplied name. -/
theorem C10_partition_name_defaulting_witness :
    fillPartitionName (some (chars "t")) { name := some (chars "Keep") } =
      { name := some (chars "Keep") } :=
  (C10_partition_name_defaulting (some (chars "t"))
      { name := some (chars "Keep") }).2.1 (chars "Keep") rfl (by decide)

/-! ## Theorems for claims C5 and C9 -/

/-- Loading one directory of transform files succeeds exactly when
every file in it passes the signature gate. -/
theorem load_transforms_files_ok_iff (files : List (Str × Str)) :
    ∀ merged, (∃ m, load_transforms_files files merged = Except.ok m) ↔
      ∀ f ∈ files, matchesSIG (processTransformText f.snd) = true := by
  induction files with
  | nil => intro merged; simp [load_transforms_files]
  | cons f rest ih =>
    intro merged
    obtain ⟨fname, text⟩ := f
    cases hm : matchesSIG (processTransformText text)
    · simp [load_transforms_files, validate_signature, hm]
    · simp only [load_transforms_files, validate_signature, hm, if_true]
      split <;> simp [ih, hm]

/-- Loading a directory list of transform files succeeds exactly when
every file in every directory passes the signature gate. -/
theorem load_transforms_dirs_ok_iff (dirs : List (List (Str × Str))) :
    ∀ merged, (∃ m, load_transforms_dirs dirs merged = Except.ok m) ↔
      ∀ d ∈ dirs, ∀ f ∈ d, matchesSIG (processTransformText f.snd) = true := by
  induction dirs with
  | nil => intro merged; simp [load_transforms_dirs]
  | cons d rest ih =>
    intro merged
    simp only [load_transforms_dirs]
    cases hd : load_transforms_files d merged with
    | error e =>
      have hnot : ¬ ∀ f ∈ d, matchesSIG (processTransformText f.snd) = true := by
        intro hall
        obtain ⟨m, hm⟩ := (load_transforms_files_ok_iff d merged).mpr hall
        rw [hd] at hm
        cases hm
      constructor
      · rintro ⟨m, hm⟩
        cases hm
      · intro hall
        exact absurd (hall d (List.mem_cons_self d rest)) hnot
    | ok m =>
      have hall : ∀ f ∈ d, matchesSIG (processTransformText f.snd) = true :=
        (load_transforms_files_ok_iff d merged).mp ⟨m, hd⟩
      rw [ih]
      constructor
      · intro hrest d' hd'
        rcases List.mem_cons.mp hd' with h | h
        · exact h ▸ hall
        · exact hrest d' h
      · intro hcons d' hd'
        exact hcons d' (List.mem_cons_of_mem _ hd')

/-- If a key is present in the merged mapping, lookup finds a value. -/
theorem lookupStr_isSome_of_any (l : List (Str × Str)) (n : Str)
    (h : l.any (fun e => e.fst = n) = true) : ∃ v, lookupStr n l = some v := by
  have h2 : (List.find? (fun e : Str × Str => e.fst = n) l).isSome = true := by
    rw [List.find?_isSome]
    exact List.any_eq_true.mp h
  obtain ⟨x, hx⟩ := Option.isSome_iff_exists.mp h2
  exact ⟨x.snd, by simp [lookupStr, hx]⟩

/-- If a key is absent from the merged mapping, lookup returns none. -/
theorem lookupStr_eq_none_of_not_any (l : List (Str × Str)) (n : Str)
    (h : l.any (fun e => e.fst = n) = false) : lookupStr n l = none := by
  have hf : List.find? (fun e : Str × Str => e.fst = n) l = none := by
    rw [List.find?_eq_none]
    intro x hx hpx
    have h2 : l.any (fun e => e.fst = n) = true := List.any_eq_true.mpr ⟨x, hx, hpx⟩
    rw [h] at h2
    cases h2
  simp [lookupStr, hf]

/-- One-directory lookup characterization for the DAX loader: a key
already present in the accumulator wins, otherwise the first scanned
file with that canonical name wins. -/
theorem lookup_load_dax_files (files : List (Str × Str)) :
    ∀ merged n, lookupStr n (load_dax_files files merged) =
      match lookupStr n merged with
      | some v => some v
      | none => (files.find? (fun f => canonical_name_dax f.fst = n)).map
                  (fun f => pyStrip (stripBOM f.snd)) := by
  induction files with
  | nil =>
    intro merged n
    cases h : lookupStr n merged <;> simp [load_dax_files, h]
  | cons f rest ih =>
    intro merged n
    obtain ⟨fname, text⟩ := f
    by_cases hn : canonical_name_dax fname = n
    · cases hA : merged.any (fun e => e.fst = canonical_name_dax fname)
      · have hnone : lookupStr n merged = none := by
          rw [← hn]; exact lookupStr_eq_none_of_not_any _ _ hA
        have happ : lookupStr n (merged ++ [(canonical_name_dax fname,
            pyStrip (stripBOM text))]) = some (pyStrip (stripBOM text)) := by
          have hfnone : List.find? (fun e : Str × Str => e.fst = n) merged = none := by
            cases hf : List.find? (fun e : Str × Str => e.fst = n) merged with
            | none => rfl
            | some x => rw [lookupStr, hf] at hnone; cases hnone
          simp [lookupStr, List.find?_append, hfnone, List.find?_cons, hn]
        simp only [load_dax_files, hA, Bool.false_eq_true, reduceIte]
        rw [ih, happ, hnone]
        simp [List.find?_cons, hn]
      · obtain ⟨v, hv⟩ := lookupStr_isSome_of_any merged (canonical_name_dax fname) hA
        rw [hn] at hv
        simp only [load_dax_files, hA, reduceIte]
        rw [ih, hv]
    · cases hA : merged.any (fun e => e.fst = canonical_name_dax fname)
      · simp only [load_dax_files, hA, Bool.false_eq_true, reduceIte]
        have happ : lookupStr n (merged ++ [(canonical_name_dax fname,
            pyStrip (stripBOM text))]) = lookupStr n merged := by
          cases hf : List.find? (fun e : Str × Str => e.fst = n) merged with
          | none => simp [lookupStr, List.find?_append, hf, List.find?_cons, hn]
          | some x => simp [lookupStr, List.find?_append, hf]
        rw [ih, happ]
        simp [List.find?_cons, hn]
      · simp only [load_dax_files, hA, reduceIte]
        rw [ih]
        simp [List.find?_cons, hn]

/-- Directory-list lookup characterization for the DAX loader. -/
theorem lookup_load_dax_dirs (dirs : List (List (Str × Str))) :
    ∀ merged n, lookupStr n (load_dax_dirs dirs merged) =
      match lookupStr n merged with
      | some v => some v
      | none => ((dirs.flatten).find? (fun f => canonical_name_dax f.fst = n)).map
                  (fun f => pyStrip (stripBOM f.snd)) := by
  induction dirs with
  | nil =>
    intro merged n
    cases h : lookupStr n merged <;> simp [load_dax_dirs, h]
  | cons d rest ih =>
    intro merged n
    simp only [load_dax_dirs, List.flatten_cons]
    rw [ih, lookup_load_dax_files]
    cases h : lookupStr n merged with
    | some v => simp
    | none =>
      cases hf : List.find? (fun f : Str × Str => canonical_name_dax f.fst = n) d with
      | some x => simp [List.find?_append, hf]
      | none => simp [List.find?_append, hf]

/-- One-directory lookup characterization for the transform loader,
conditioned on the load succeeding. -/
theorem lookup_load_transforms_files (files : List (Str × Str)) :
    ∀ merged m n, load_transforms_files files merged = Except.ok m →
      lookupStr n m =
        match lookupStr n merged with
        | some v => some v
        | none => (files.find? (fun f => canonical_name f.fst = n)).map
                    (fun f => processTransformText f.snd) := by
  induction files with
  | nil =>
    intro merged m n hm
    cases hm
    cases h : lookupStr n merged <;> simp [h]
  | cons f rest ih =>
    intro merged m n hm
    obtain ⟨fname, text⟩ := f
    cases hs : matchesSIG (processTransformText text) with
    | false =>
      rw [load_transforms_files, validate_signature, hs] at hm
      cases hm
    | true =>
      rw [load_transforms_files, validate_signature, hs] at hm
      simp only [if_true, reduceIte] at hm
      by_cases hn : canonical_name fname = n
      · cases hA : merged.any (fun e => e.fst = canonical_name fname)
        · rw [hA] at hm
          simp only [Bool.false_eq_true, reduceIte] at hm
          have hnone : lookupStr n merged = none := by
            rw [← hn]; exact lookupStr_eq_none_of_not_any _ _ hA
          have hfnone : List.find? (fun e : Str × Str => e.fst = n) merged = none := by
            cases hf : List.find? (fun e : Str × Str => e.fst = n) merged with
            | none => rfl
            | some x => rw [lookupStr, hf] at hnone; cases hnone
          have happ : lookupStr n (merged ++ [(canonical_name fname,
              processTransformText text)]) = some (processTransformText text) := by
            simp [lookupStr, List.find?_append, hfnone, List.find?_cons, hn]
          rw [ih _ _ _ hm, happ, hnone]
          simp [List.find?_cons, hn]
        · rw [hA] at hm
          simp only [reduceIte] at hm
          obtain ⟨v, hv⟩ := lookupStr_isSome_of_any merged (canonical_name fname) hA
          rw [hn] at hv
          rw [ih _ _ _ hm, hv]
      · cases hA : merged.any (fun e => e.fst = canonical_name fname)
        · rw [hA] at hm
          simp only [Bool.false_eq_true, reduceIte] at hm
          have happ : lookupStr n (merged ++ [(canonical_name fname,
              processTransformText text)]) = lookupStr n merged := by
            cases hf : List.find? (fun e : Str × Str => e.fst = n) merged with
            | none => simp [lookupStr, List.find?_append, hf, List.find?_cons, hn]
            | some x => simp [lookupStr, List.find?_append, hf]
          rw [ih _ _ _ hm, happ]
          simp [List.find?_cons, hn]
        · rw [hA] at hm
          simp only [reduceIte] at hm
          rw [ih _ _ _ hm]
          simp [List.find?_cons, hn]

/-- Directory-list lookup characterization for the transform loader. -/
theorem lookup_load_transforms_dirs (dirs : List (List (Str × Str))) :
    ∀ merged m n, load_transforms_dirs dirs merged = Except.ok m →
      lookupStr n m =
        match lookupStr n merged with
        | some v => some v
        | none => ((dirs.flatten).find? (fun f => canonical_name f.fst = n)).map
                    (fun f => processTransformText f.snd) := by
  induction dirs with
  | nil =>
    intro merged m n hm
    cases hm
    cases h : lookupStr n merged <;> simp [h]
  | cons d rest ih =>
    intro merged m n hm
    rw [load_transforms_dirs] at hm
    cases hd : load_transforms_files d merged with
    | error e => rw [hd] at hm; cases hm
    | ok m1 =>
      rw [hd] at hm
      rw [ih _ _ _ hm, lookup_load_transforms_files d _ _ _ hd]
      simp only [List.flatten_cons]
      cases h : lookupStr n merged with
      | some v => simp
      | none =>
        cases hf : List.find? (fun f : Str × Str => canonical_name f.fst = n) d with
        | some x => simp [List.find?_append, hf]
        | none => simp [List.find?_append, hf]

/-- C5 counterexample: a snippet file whose body is the higher-order
variant, a single parameter returning function rather than table, is
rejected by the registry load with an error identifying that file,
although the claim states that this calling convention is accepted. -/
theorem C5_counterexample :
    load_transforms [[(chars "hof.m.j2",
        chars "(f as table) as function =>\nlet\n  x = f\nin\n  x")]] =
      Except.error (chars "hof.m.j2" ++ sigErrorSuffix) := by
  rfl

/-- C5 (amended): the registry load succeeds exactly when every file in
every listed directory matches the single accepted signature shape, a
single-parameter function declared as (name as table) as table followed
either immediately by the arrow token or by a whitespace character; the
higher-order returning-function variant is not accepted; a failing file
is reported by an error identifying that file; acceptance depends only
on the file text, never on its directory. -/
theorem C5_signature_gate :
    (∀ dirs, (∃ m, load_transforms dirs = Except.ok m) ↔
        ∀ d ∈ dirs, ∀ f ∈ d, matchesSIG (processTransformText f.snd) = true) ∧
    (∀ fname text, matchesSIG (processTransformText text) = false →
        load_transforms [[(fname, text)]] = Except.error (fname ++ sigErrorSuffix)) ∧
    (matchesSIG (chars "(t as table) as table => Table.Distinct(t)") = true) ∧
    (matchesSIG (chars "(Sheet as table) as table\nlet\n  a = Sheet\nin\n  a") = true) ∧
    (matchesSIG (chars "(f as table) as function =>\nlet\n  a = f\nin\n  a") = false) := by
  refine ⟨?_, ?_, by decide, by decide, by decide⟩
  · intro dirs
    rw [load_transforms, load_transforms_dirs_ok_iff]
    constructor
    · intro h d hd
      exact h d (List.mem_reverse.mpr hd)
    · intro h d hd
      exact h d (List.mem_reverse.mp hd)
  · intro fname text h
    simp [load_transforms, load_transforms_dirs, load_transforms_files,
      validate_signature, h]

/-- C5 witness: the failure conjunct applied to a concrete file that
fails the signature gate. -/
theorem C5_signature_gate_witness :
    load_transforms [[(chars "bad.m.j2", chars "notafunction")]] =
      Except.error (chars "bad.m.j2" ++ sigErrorSuffix) :=
  C5_signature_gate.2.1 (chars "bad.m.j2") (chars "notafunction") (by decide)

/-- C9: registry precedence. Loading is a pure function of the
directory list (loading twice yields the identical mapping); the
looked-up body of any name is the one of the first file carrying that
canonical name in the concatenation of the directories scanned from
last to first, so for a name present in two directories the later
listed directory wins; concretely, with a global then a local
directory both holding template.dax, the local body wins. -/
theorem C9_registry_precedence :
    (∀ dirs, load_transforms dirs = load_transforms dirs ∧
        load_dax_templates dirs = load_dax_templates dirs) ∧
    (∀ dirs n, lookupStr n (load_dax_templates dirs) =
        ((dirs.reverse.flatten).find? (fun f => canonical_name_dax f.fst = n)).map
          (fun f => pyStrip (stripBOM f.snd))) ∧
    (∀ dirs m n, load_transforms dirs = Except.ok m →
        lookupStr n m =
          ((dirs.reverse.flatten).find? (fun f => canonical_name f.fst = n)).map
            (fun f => processTransformText f.snd)) ∧
    (∀ d1 d2 m n, load_transforms [d1, d2] = Except.ok m →
        (∃ f ∈ d2, canonical_name f.fst = n) →
        lookupStr n m =
          (d2.find? (fun f => canonical_name f.fst = n)).map
            (fun f => processTransformText f.snd)) ∧
    (lookupStr (chars "template")
        (load_dax_templates [[(chars "template.dax", chars "GLOBAL")],
                             [(chars "template.dax", chars "LOCAL")]]) =
      some (chars "LOCAL")) := by
  refine ⟨fun dirs => ⟨rfl, rfl⟩, ?_, ?_, ?_, by decide⟩
  · intro dirs n
    rw [load_dax_templates, lookup_load_dax_dirs]
    simp [lookupStr]
  · intro dirs m n hm
    rw [load_transforms] at hm
    rw [lookup_load_transforms_dirs _ _ _ _ hm]
    simp [lookupStr]
  · intro d1 d2 m n hm hex
    rw [load_transforms] at hm
    rw [lookup_load_transforms_dirs _ _ _ _ hm]
    have hsome : (List.find? (fun f : Str × Str => canonical_name f.fst = n) d2).isSome
        = true := by
      rw [List.find?_isSome]
      obtain ⟨f, hf, hp⟩ := hex
      exact ⟨f, hf, by simp [hp]⟩
    obtain ⟨x, hx⟩ := Option.isSome_iff_exists.mp hsome
    simp only [List.reverse_cons, List.reverse_nil, List.nil_append,
      List.cons_append, List.flatten_cons, List.flatten_nil, List.append_nil]
    simp [List.find?_append, hx, lookupStr]

/-- C9 witness: the later-listed-directory-wins conjunct applied to two
concrete one-file directories sharing a canonical name. -/
theorem C9_registry_precedence_witness :
    lookupStr (chars "f") [(chars "f", chars "(t as table) as table => B(t)")] =
      (([(chars "f.m.j2", chars "(t as table) as table => B(t)")].find?
          (fun f => canonical_name f.fst = chars "f")).map
        (fun f => processTransformText f.snd)) :=
  C9_registry_precedence.2.2.2.1
    [(chars "f.m.j2", chars "(t as table) as table => A(t)")]
    [(chars "f.m.j2", chars "(t as table) as table => B(t)")]
    [(chars "f", chars "(t as table) as table => B(t)")]
    (chars "f") (by rfl)
    ⟨(chars "f.m.j2", chars "(t as table) as table => B(t)"), by decide, by decide⟩

/-! ## Theorems for claims C1, C2, C6, C7, C8 -/

theorem pyRStripChar_cons (c a : Char) (l : Str) (h : ¬ a = c) :
    pyRStripChar c (a :: l) = a :: pyRStripChar c l := by
  unfold pyRStripChar
  rw [List.reverse_cons, List.dropWhile_append]
  split
  · rename_i he
    rw [List.isEmpty_iff] at he
    simp [List.dropWhile_cons, h, he]
  · simp [List.reverse_append]

theorem pyEndsWith_concat_comma (y : Str) :
    pyEndsWith (y ++ [',']) (chars ",") = true := by
  simp [pyEndsWith, List.isSuffixOf, chars, List.reverse_append, List.isPrefixOf]

theorem pyEndsWith_concat_notcomma (y : Str) (a : Char) (h : ¬ a = ',') :
    pyEndsWith (y ++ [a]) (chars ",") = false := by
  simp [pyEndsWith, List.isSuffixOf, chars, List.reverse_append, List.isPrefixOf]
  intro hh
  exact absurd hh.symm h

theorem pyStrip_concat (z : Str) (c : Char) (hw : pyIsSpace c = false) :
    ∃ z', pyStrip (z ++ [c]) = z' ++ [c] := by
  unfold pyStrip pyLStrip pyRStrip
  rw [List.dropWhile_append]
  split
  · refine ⟨[], ?_⟩
    simp [List.dropWhile_cons, hw]
  · refine ⟨List.dropWhile pyIsSpace z, ?_⟩
    rw [List.reverse_append]
    simp [List.dropWhile_cons, hw]

theorem pyStrip_ends_comma (z : Str) :
    pyEndsWith (pyStrip (z ++ [','])) (chars ",") = true := by
  obtain ⟨z', hz⟩ := pyStrip_concat z ',' (by decide)
  rw [hz]
  exact pyEndsWith_concat_comma z'

theorem pyStrip_ends_notcomma (z : Str) (c : Char) (hc : ¬ c = ',')
    (hw : pyIsSpace c = false) :
    pyEndsWith (pyStrip (z ++ [c])) (chars ",") = false := by
  obtain ⟨z', hz⟩ := pyStrip_concat z c hw
  rw [hz]
  exact pyEndsWith_concat_notcomma z' c hc

theorem pyRStripChar_concat_pair (z : Str) (c : Char) (hc : ¬ c = ',') :
    pyRStripChar ',' (z ++ [c, ',']) = z ++ [c] := by
  have : z ++ [c, ','] = (z ++ [c]) ++ [','] := by simp
  rw [this]
  unfold pyRStripChar
  rw [List.reverse_append]
  simp [List.dropWhile_cons, hc, List.reverse_append]

theorem ensureLastComma_concat_comma (L : List Str) (z : Str) :
    ensureLastComma (L ++ [z ++ [',']]) = L ++ [z ++ [',']] := by
  unfold ensureLastComma
  rw [List.getLast?_concat]
  simp [pyStrip_ends_comma]

theorem stripFinalComma_concat_eq (L : List Str) (x : Str) :
    stripFinalComma (L ++ [x]) =
      if pyEndsWith (pyStrip x) (chars ",") = true then
        L ++ [pyRStripChar ',' x]
      else L ++ [x] := by
  unfold stripFinalComma
  rw [List.getLast?_concat]
  show (if pyEndsWith (pyStrip x) (chars ",") = true then
      (L ++ [x]).dropLast ++ [pyRStripChar ',' x] else L ++ [x]) = _
  rw [List.dropLast_concat]

theorem ensureLastComma_concat_eq (L : List Str) (x : Str) :
    ensureLastComma (L ++ [x]) =
      if pyEndsWith (pyStrip x) (chars ",") = true then L ++ [x]
      else L ++ [x ++ chars ","] := by
  unfold ensureLastComma
  rw [List.getLast?_concat]
  show (if pyEndsWith (pyStrip x) (chars ",") = true then L ++ [x]
      else (L ++ [x]).dropLast ++ [x ++ chars ","]) = _
  rw [List.dropLast_concat]

theorem stripFinalComma_concat (L : List Str) (z : Str) (c : Char) (hc : ¬ c = ',') :
    stripFinalComma (L ++ [z ++ [c, ',']]) = L ++ [z ++ [c]] := by
  have h1 : z ++ [c, ','] = (z ++ [c]) ++ [','] := by simp
  rw [stripFinalComma_concat_eq, h1, pyStrip_ends_comma]
  simp only [if_true, reduceIte]
  rw [← h1, pyRStripChar_concat_pair z c hc]

theorem missingTransformsGate_error (p : Partition) (t : Table)
    (transforms : List (Str × Str))
    (hm : p.custom_steps.filter (fun nm => !(transforms.any (fun e => e.fst = nm))) ≠ []) :
    missingTransformsGate p t transforms =
      Except.error (chars "Partition \x27" ++ p.name ++ chars "\x27 in table \x27" ++
        t.name ++ chars "\x27 references unknown transforms: " ++
        pyReprStrList (p.custom_steps.filter
          (fun nm => !(transforms.any (fun e => e.fst = nm))))) := by
  have hsteps : p.custom_steps.isEmpty = false := by
    cases hcs : p.custom_steps with
    | nil => rw [hcs] at hm; exact absurd (by simp) hm
    | cons a l => rfl
  have hmiss : (p.custom_steps.filter
      (fun nm => !(transforms.any (fun e => e.fst = nm)))).isEmpty = false := by
    cases hf : p.custom_steps.filter (fun nm => !(transforms.any (fun e => e.fst = nm))) with
    | nil => exact absurd hf hm
    | cons a l => rfl
  simp only [missingTransformsGate, hsteps, hmiss, Bool.not_false, if_true, reduceIte]

theorem missingTransformsGate_ok (p : Partition) (t : Table)
    (transforms : List (Str × Str))
    (hm : p.custom_steps.filter (fun nm => !(transforms.any (fun e => e.fst = nm))) = []) :
    missingTransformsGate p t transforms = Except.ok () := by
  cases hsteps : p.custom_steps.isEmpty with
  | true => simp [missingTransformsGate, hsteps]
  | false => simp [missingTransformsGate, hsteps, hm]

/-- C8: when a partition references custom transform steps, the generator
collects every referenced name missing from the transform mapping in one
up-front pass and fails with a single error listing all missing names. -/
theorem C8_missing_transforms (p : Partition) (t : Table)
    (sources : List (Str × Source)) (transforms : List (Str × Str))
    (tmpl : Source → Str → Str) (k : Str) (src : Source)
    (hk : resolveSourceKey p t = Except.ok k)
    (hs : lookupSource sources k = some src)
    (hm : p.custom_steps.filter (fun nm => !(transforms.any (fun e => e.fst = nm))) ≠ []) :
    generate_partition_mcode_lines p t sources transforms tmpl =
      Except.error (chars "Partition \x27" ++ p.name ++ chars "\x27 in table \x27" ++
        t.name ++ chars "\x27 references unknown transforms: " ++
        pyReprStrList (p.custom_steps.filter
          (fun nm => !(transforms.any (fun e => e.fst = nm))))) := by
  simp only [generate_partition_mcode_lines, hk, hs,
    missingTransformsGate_error p t transforms hm, bind, Except.bind]

theorem nativeQueryBranch_no_db (p : Partition) (t : Table)
    (declaredCols : List (Str × Str)) (transforms : List (Str × Str))
    (k : Str) (src : Source)
    (hnavdb : optStrTruthy (navDatabase p.navigation) = false)
    (hdb : optStrTruthy src.database = false) :
    nativeQueryBranch p t declaredCols transforms k src =
      Except.error (chars "Cannot run nativeQuery for partition \x27" ++ p.name ++
        chars "\x27: source \x27" ++ k ++
        chars "\x27 has no database and partition has no navigation.database") := by
  have hlet : (([chars "let"] : List Str).any
      (fun l => pyStartsWith (pyStrip l) (chars "DB ="))) = false := by decide
  simp only [nativeQueryBranch, resolve_db, hnavdb, hdb, Bool.false_eq_true, if_false,
    reduceIte, bind, Except.bind, List.append_nil, hlet, Bool.not_false, if_true]

theorem navigationBranch_no_db (p : Partition) (t : Table)
    (declaredCols : List (Str × Str)) (transforms : List (Str × Str))
    (k : Str) (src : Source) (nav : Navigation)
    (hnavdb : optStrTruthy nav.database = false)
    (hdb : optStrTruthy src.database = false) :
    navigationBranch p t declaredCols transforms k src nav =
      Except.error (chars "Source \x27" ++ k ++
        chars "\x27 does not define a database; partition \x27" ++ p.name ++
        chars "\x27 must specify navigation.database") := by
  simp only [navigationBranch, resolve_db, navDatabase, hnavdb, hdb, Bool.false_eq_true,
    if_false, reduceIte, if_true, bind, Except.bind]

/-- C7: a native-query partition on a source with no default database and no
navigation database fails with the cannot-run-nativeQuery error; a navigation
partition without any database fails with the must-specify-navigation.database
error; the parallel builder API raises the same native-query error. -/
theorem C7_native_query_requires_database (p : Partition) (t : Table)
    (sources : List (Str × Source)) (transforms : List (Str × Str))
    (tmpl : Source → Str → Str) (k : Str) (src : Source) (connCall : Str)
    (hk : resolveSourceKey p t = Except.ok k)
    (hs : lookupSource sources k = some src)
    (hsteps : p.custom_steps.filter (fun nm => !(transforms.any (fun e => e.fst = nm))) = [])
    (hdb : optStrTruthy src.database = false) :
    (p.navigation = none → optStrTruthy p.nativeQuery = true →
        generate_partition_mcode_lines p t sources transforms tmpl =
          Except.error (chars "Cannot run nativeQuery for partition \x27" ++ p.name ++
            chars "\x27: source \x27" ++ k ++
            chars "\x27 has no database and partition has no navigation.database")) ∧
    (∀ nav, p.navigation = some nav → optStrTruthy nav.database = false →
        generate_partition_mcode_lines p t sources transforms tmpl =
          Except.error (chars "Source \x27" ++ k ++
            chars "\x27 does not define a database; partition \x27" ++ p.name ++
            chars "\x27 must specify navigation.database")) ∧
    (optStrTruthy (navDatabase p.navigation) = false → optStrTruthy p.nativeQuery = true →
        builder_add_database_navigation p k src connCall =
          Except.error (chars "Cannot run nativeQuery for partition \x27" ++ p.name ++
            chars "\x27: source \x27" ++ k ++
            chars "\x27 has no database and partition has no navigation.database")) := by
  refine ⟨?_, ?_, ?_⟩
  · intro hnav hnq
    have hnavdb : optStrTruthy (navDatabase p.navigation) = false := by
      rw [hnav]; rfl
    simp only [generate_partition_mcode_lines, hk, hs,
      missingTransformsGate_ok p t transforms hsteps, bind, Except.bind, hnav, hnq,
      if_true, reduceIte]
    exact nativeQueryBranch_no_db p t _ transforms k src hnavdb hdb
  · intro nav hnav hnavdb
    simp only [generate_partition_mcode_lines, hk, hs,
      missingTransformsGate_ok p t transforms hsteps, bind, Except.bind, hnav]
    exact navigationBranch_no_db p t _ transforms k src nav hnavdb hdb
  · intro hnavdb hnq
    simp only [builder_add_database_navigation, hnavdb, hdb, hnq, Bool.false_eq_true,
      if_false, reduceIte, if_true]

/-- A snowflake source whose declared default database is D. -/
def sourceWithDefaultD : Source :=
  { kind := chars "snowflake", server := some (chars "sv"),
    database := some (chars "D") }

/-- C2 counterexample: even when the partition navigation database is
present, the resolver still emits the SourceColl collection binding before
the DB binding, so it does not connect directly without the collection
lookup as the claim's default-database clause suggests. -/
theorem C2_counterexample :
    resolve_db (chars "P") sourceWithDefaultD (chars "s")
        (some { database := some (chars "D"), schema_ := chars "S",
                table := chars "T" }) true =
      Except.ok
        [chars "  SourceColl = Snowflake.Databases(\"sv\"),",
         chars "  DB = SourceColl\x7b[Name = \"D\", Kind = \"Database\"]\x7d[Data],"] ∧
    pyStartsWith (chars "  SourceColl = Snowflake.Databases(\"sv\"),")
      (chars "  SourceColl =") = true := by
  exact ⟨rfl, by decide⟩

/-- C2 (amended): the navigation database takes precedence over the source
default database, and every successful resolution emits exactly the two
navigation lines: the SourceColl collection binding followed by the DB
name-filter binding; the source-resolver variant behaves identically given a
connection call, and emits nothing when no database is supplied. -/
theorem C2_database_navigation (pn k : Str) (src : Source) (nav : Option Navigation)
    (req : Bool) (connCall : Str) :
    (optStrTruthy (navDatabase nav) = true →
        resolve_db pn src k nav req =
          Except.ok (dbNavLines src ((navDatabase nav).getD []))) ∧
    (optStrTruthy (navDatabase nav) = false → optStrTruthy src.database = true →
        resolve_db pn src k nav req =
          Except.ok (dbNavLines src (src.database.getD []))) ∧
    (∀ db : Str, dbNavLines src db =
        [chars "  SourceColl = " ++ build_snowflake_call src ++ chars ",",
         chars "  DB = SourceColl\x7b[Name = \"" ++ db ++
           chars "\", Kind = \"Database\"]\x7d[Data],"]) ∧
    (∀ db : Str, db ≠ [] → resolve_database_navigation connCall (some db) =
        [chars "  SourceColl = " ++ connCall ++ chars ",",
         chars "  DB = SourceColl\x7b[Name = \"" ++ db ++
           chars "\", Kind = \"Database\"]\x7d[Data],"]) ∧
    (resolve_database_navigation connCall none = []) := by
  refine ⟨?_, ?_, fun db => rfl, ?_, rfl⟩
  · intro h
    simp [resolve_db, h]
  · intro h1 h2
    simp [resolve_db, h1, h2]
  · intro db hdb
    have : (db.isEmpty : Bool) = false := by
      cases db with
      | nil => exact absurd rfl hdb
      | cons a l => rfl
    simp [resolve_database_navigation, optStrTruthy, this]

/-- C2 witness: a concrete navigation database resolves to the two
navigation lines. -/
theorem C2_database_navigation_witness :
    resolve_db (chars "P") sourceWithDefaultD (chars "s")
        (some { database := some (chars "D"), schema_ := chars "S",
                table := chars "T" }) true =
      Except.ok (dbNavLines sourceWithDefaultD
        ((navDatabase (some { database := some (chars "D"), schema_ := chars "S",
                              table := chars "T" })).getD [])) :=
  (C2_database_navigation (chars "P") (chars "s") sourceWithDefaultD
      (some { database := some (chars "D"), schema_ := chars "S",
              table := chars "T" }) true []).1 (by decide)

/-- An import partition carrying only a native query, on a source with
no default database. -/
def nqNoDbPartition : Partition :=
  { name := chars "NP", use := some (chars "s"),
    nativeQuery := some (chars "select 1") }

/-- A snowflake source with no default database. -/
def srcNoDb : Source :=
  { kind := chars "snowflake", server := some (chars "sv") }

/-- A plain table referencing the above partition. -/
def nqTable : Table :=
  { name := chars "T", partitions := [nqNoDbPartition] }

/-- C7 witness: a concrete native-query partition on a database-less source
fails with the cannot-run-nativeQuery error. -/
theorem C7_witness :
    generate_partition_mcode_lines nqNoDbPartition nqTable [(chars "s", srcNoDb)]
        [] (fun _ _ => []) =
      Except.error (chars "Cannot run nativeQuery for partition \x27" ++
        chars "NP" ++ chars "\x27: source \x27" ++ chars "s" ++
        chars "\x27 has no database and partition has no navigation.database") :=
  (C7_native_query_requires_database nqNoDbPartition nqTable [(chars "s", srcNoDb)]
      [] (fun _ _ => []) (chars "s") srcNoDb [] (by rfl) (by rfl) (by rfl)
      (by rfl)).1 rfl (by decide)

/-- C8 witness: a partition referencing two unknown transforms fails with
one error listing both names. -/
theorem C8_missing_transforms_witness :
    generate_partition_mcode_lines
        { name := chars "MP", use := some (chars "s"),
          nativeQuery := some (chars "select 1"),
          custom_steps := [chars "gone", chars "lost"] }
        nqTable [(chars "s", srcNoDb)] [] (fun _ _ => []) =
      Except.error (chars "Partition \x27" ++ chars "MP" ++
        chars "\x27 in table \x27" ++ chars "T" ++
        chars "\x27 references unknown transforms: " ++
        pyReprStrList [chars "gone", chars "lost"]) := by
  have h := C8_missing_transforms
    { name := chars "MP", use := some (chars "s"),
      nativeQuery := some (chars "select 1"),
      custom_steps := [chars "gone", chars "lost"] }
    nqTable [(chars "s", srcNoDb)] [] (fun _ _ => []) (chars "s") srcNoDb
    (by rfl) (by rfl) (by decide)
  exact h

def hasSimpleBody (transforms : List (Str × Str)) (nm : Str) : Prop :=
  ∃ body, lookupStr nm transforms = some body ∧
    (extract_transform_body (pyStrip body) (extract_param_name (pyStrip body))).fst = []

def snippetExpr (transforms : List (Str × Str)) (nm : Str) : Str :=
  (extract_transform_body (pyStrip ((lookupStr nm transforms).getD []))
    (extract_param_name (pyStrip ((lookupStr nm transforms).getD [])))).snd

def snippetParam (transforms : List (Str × Str)) (nm : Str) : Str :=
  extract_param_name (pyStrip ((lookupStr nm transforms).getD []))

def specChainVar (nm : Str) (idx : Nat) : Str :=
  chars "__" ++ nm ++ chars "_" ++ chars (toString idx)

def specChain (transforms : List (Str × Str)) (total : Nat) :
    List Str → Nat → Str → List Str × Str
  | [], _, curr => ([], curr)
  | nm :: rest, idx, curr =>
    let line := chars "  " ++ specChainVar nm idx ++ chars " = " ++
      replaceParamInBody (snippetExpr transforms nm) (snippetParam transforms nm) curr ++
      (if idx = total then [] else chars ",")
    let r := specChain transforms total rest (idx + 1) (specChainVar nm idx)
    (line :: r.fst, r.snd)

theorem specChain_cons_eq (transforms : List (Str × Str)) (total : Nat)
    (nm : Str) (rest : List Str) (idx : Nat) (curr : Str) :
    specChain transforms total (nm :: rest) idx curr =
      ((chars "  " ++ specChainVar nm idx ++ chars " = " ++
          replaceParamInBody (snippetExpr transforms nm) (snippetParam transforms nm) curr ++
          (if idx = total then [] else chars ",")) ::
        (specChain transforms total rest (idx + 1) (specChainVar nm idx)).fst,
       (specChain transforms total rest (idx + 1) (specChainVar nm idx)).snd) := rfl

theorem specChain_snd (transforms : List (Str × Str)) (total : Nat) :
    ∀ (steps : List Str) (idx : Nat) (curr : Str) (nm : Str),
      steps.getLast? = some nm →
      (specChain transforms total steps idx curr).snd =
        specChainVar nm (idx + steps.length - 1) := by
  intro steps
  induction steps with
  | nil => intro idx curr nm h; cases h
  | cons a rest ih =>
    intro idx curr nm h
    cases rest with
    | nil =>
      simp only [List.getLast?_singleton, Option.some.injEq] at h
      subst h
      simp [specChain, specChainVar]
    | cons b rest2 =>
      have h2 : (b :: rest2).getLast? = some nm := by
        rw [← h]
        simp [List.getLast?_cons_cons]
      rw [specChain_cons_eq]
      show (specChain transforms total (b :: rest2) (idx + 1) (specChainVar a idx)).snd = _
      rw [ih (idx + 1) _ nm h2]
      congr 1
      simp [List.length_cons]
      omega

theorem pyEndsWith_comma_strip (x : Str) (h : x.getLast? = some ',') :
    pyEndsWith (pyStrip x) (chars ",") = true := by
  obtain ⟨z, rfl⟩ := List.getLast?_eq_some_iff.mp h
  exact pyStrip_ends_comma z

theorem getLast_comma_cons (a : Char) (l : Str) (h : l.getLast? = some ',') :
    (a :: l).getLast? = some ',' := by
  cases l with
  | nil => cases h
  | cons b bs => rw [List.getLast?_cons_cons]; exact h

theorem getLast_comma_append (l z : Str) (h : z.getLast? = some ',') :
    (l ++ z).getLast? = some ',' := by
  rw [List.getLast?_append, h]
  rfl

theorem ensureLastComma_of_ends (L : List Str) (x : Str)
    (hx : pyEndsWith (pyStrip x) (chars ",") = true) :
    ensureLastComma (L ++ [x]) = L ++ [x] := by
  rw [ensureLastComma_concat_eq, hx]
  simp

theorem emitSeqStepsLoop_simple (transforms : List (Str × Str)) :
    ∀ (steps : List Str) (nm : Str) (idx total : Nat) (lines : List Str) (curr : Str),
      (∀ s ∈ nm :: steps, hasSimpleBody transforms s) →
      total + 1 = idx + (nm :: steps).length →
      emitSeqStepsLoop transforms total (nm :: steps) idx lines curr =
        Except.ok (ensureLastComma lines ++
            (specChain transforms total (nm :: steps) idx curr).fst,
          (specChain transforms total (nm :: steps) idx curr).snd) := by
  intro steps
  induction steps with
  | nil =>
    intro nm idx total lines curr hsim htot
    obtain ⟨body, hlk, hext⟩ := hsim nm (List.mem_cons_self nm [])
    have hteq : idx = total := by simp at htot; omega
    have hexte : (extract_transform_body (pyStrip body)
        (extract_param_name (pyStrip body))).fst.isEmpty = true := by
      rw [hext]; rfl
    rw [emitSeqStepsLoop, hlk]
    simp only [hexte, if_true, reduceIte, hteq, emitSeqStepsLoop]
    rw [specChain_cons_eq]
    simp only [hteq, if_true, reduceIte, specChain, snippetExpr, snippetParam, hlk,
      Option.getD_some, List.append_nil, specChainVar]
  | cons b rest ih =>
    intro nm idx total lines curr hsim htot
    obtain ⟨body, hlk, hext⟩ := hsim nm (List.mem_cons_self nm _)
    have hne : ¬ idx = total := by simp at htot; omega
    have hexte : (extract_transform_body (pyStrip body)
        (extract_param_name (pyStrip body))).fst.isEmpty = true := by
      rw [hext]; rfl
    have hsim2 : ∀ s ∈ b :: rest, hasSimpleBody transforms s := by
      intro s hs
      exact hsim s (List.mem_cons_of_mem nm hs)
    have htot2 : total + 1 = (idx + 1) + (b :: rest).length := by
      simp at htot ⊢; omega
    rw [emitSeqStepsLoop, hlk]
    simp only [hexte, if_true, reduceIte, hne, if_false]
    rw [ih b (idx + 1) total _ _ hsim2 htot2]
    rw [ensureLastComma_of_ends]
    · simp [specChain_cons_eq, snippetExpr, snippetParam, hlk, specChainVar, hne,
        List.append_assoc]
    · apply pyEndsWith_comma_strip
      repeat
        first
        | exact List.getLast?_concat _
        | apply getLast_comma_cons
        | apply getLast_comma_append
        | rfl

def letTransform : List (Str × Str) :=
  [(chars "clean",
    chars "(Sheet as table) as table =>\nlet\n    PromotedHeaders = Table.PromoteHeaders(Sheet, [PromoteAllScalars=true]),\n    CleanedColumns = Table.TransformColumnNames(PromotedHeaders, Text.Trim)\nin\n    CleanedColumns")]

/-- C1 counterexample: a snippet whose body is a let block is flattened
into its constituent bindings (two bindings here for one snippet), and the
resulting seed is the let block's result variable rather than the generated
chain variable __clean_1, contradicting one-binding-per-snippet. -/
theorem C1_counterexample :
    emit_sequential_steps letTransform [chars "clean"]
        [chars "let", chars "  X = F,"] (chars "X") =
      Except.ok ([chars "let", chars "  X = F,",
        chars "  PromotedHeaders = Table.PromoteHeaders(X, [PromoteAllScalars=true]),",
        chars "  CleanedColumns = Table.TransformColumnNames(PromotedHeaders, Text.Trim)"],
        chars "CleanedColumns") ∧
    chars "CleanedColumns" ≠ chars "__clean_1" := by
  constructor
  · set_option maxRecDepth 4000 in rfl
  · decide

/-- C1 (amended): for snippets whose extracted body is a single expression,
stage 6 emits exactly one binding per snippet in list order; each binding
substitutes the snippet's declared parameter by the current seed variable,
the generated variables are named with the double-underscore name-index
scheme, and the final seed is the last generated variable. (Let-block
snippets are instead flattened into several bindings, see the
counterexample.) -/
theorem C1_sequential_transforms (transforms : List (Str × Str)) (steps : List Str)
    (lines : List Str) (seed : Str)
    (hne : steps ≠ [])
    (hsimple : ∀ s ∈ steps, hasSimpleBody transforms s) :
    emit_sequential_steps transforms steps lines seed =
      Except.ok (ensureLastComma lines ++
          (specChain transforms steps.length steps 1 seed).fst,
        (specChain transforms steps.length steps 1 seed).snd) ∧
    (∀ nm, steps.getLast? = some nm →
        (specChain transforms steps.length steps 1 seed).snd =
          specChainVar nm steps.length) ∧
    (replaceParamInBody (chars "Table.AddColumn(t, tx, t)") (chars "t") (chars "X") =
      chars "Table.AddColumn(X, tx, X)") := by
  refine ⟨?_, ?_, by decide⟩
  · cases steps with
    | nil => exact absurd rfl hne
    | cons nm rest =>
      have hempty : ((nm :: rest : List Str).isEmpty) = false := rfl
      rw [emit_sequential_steps]
      simp only [hempty, Bool.false_eq_true, if_false, reduceIte]
      exact emitSeqStepsLoop_simple transforms rest nm 1 (nm :: rest).length lines seed
        hsimple (by simp; omega)
  · intro nm hlast
    rw [specChain_snd transforms steps.length steps 1 seed nm hlast]
    congr 1
    omega

def demoTransforms : List (Str × Str) :=
  [(chars "f", chars "(t as table) as table => F(t)"),
   (chars "g", chars "(t as table) as table => G(t)")]

/-- C1 witness: two simple snippets chain into two bindings with the
name-index variables. -/
theorem C1_sequential_transforms_witness :
    emit_sequential_steps demoTransforms [chars "f", chars "g"]
        [chars "let", chars "  Typed = T,"] (chars "Typed") =
      Except.ok (ensureLastComma [chars "let", chars "  Typed = T,"] ++
          (specChain demoTransforms 2 [chars "f", chars "g"] 1 (chars "Typed")).fst,
        (specChain demoTransforms 2 [chars "f", chars "g"] 1 (chars "Typed")).snd) :=
  (C1_sequential_transforms demoTransforms [chars "f", chars "g"]
      [chars "let", chars "  Typed = T,"] (chars "Typed") (by decide)
      (by
        intro s hs
        rcases List.mem_cons.mp hs with h | h
        · subst h
          exact ⟨chars "(t as table) as table => F(t)", rfl, rfl⟩
        · rcases List.mem_cons.mp h with h2 | h2
          · subst h2
            exact ⟨chars "(t as table) as table => G(t)", rfl, rfl⟩
          · cases h2)).1

def lineOk (l : Str) : Prop :=
  pyStartsWith l (chars "  ") = true ∨ pyStartsWith l (chars "let") = true

def wellTerminated (L : List Str) : Prop :=
  (L.filter (fun l => l = chars "in")).length = 1 ∧
  ∃ L0 v, L = L0 ++ [chars "in", chars "  " ++ v] ∧
    (∀ l, L0.getLast? = some l → pyEndsWith (pyStrip l) (chars ",") = false)

theorem pyStartsWith_mono (p l x : Str) (h : pyStartsWith l p = true) :
    pyStartsWith (l ++ x) p = true := by
  rw [pyStartsWith, List.isPrefixOf_iff_prefix] at h ⊢
  exact h.trans (List.prefix_append l x)

theorem lineOk_append (l x : Str) (h : lineOk l) : lineOk (l ++ x) := by
  rcases h with h | h
  · exact Or.inl (pyStartsWith_mono _ _ _ h)
  · exact Or.inr (pyStartsWith_mono _ _ _ h)

theorem startsWith_two (a b : Char) (t : Str) :
    pyStartsWith (a :: b :: t) [a, b] = true := by
  simp [pyStartsWith, List.isPrefixOf]

theorem lineOk_rstrip (l : Str) (h : lineOk l) : lineOk (pyRStripChar ',' l) := by
  rcases h with h | h
  · rw [pyStartsWith, List.isPrefixOf_iff_prefix] at h
    obtain ⟨t, rfl⟩ := h
    show lineOk (pyRStripChar ',' (' ' :: ' ' :: t))
    rw [pyRStripChar_cons ',' ' ' _ (by decide), pyRStripChar_cons ',' ' ' _ (by decide)]
    exact Or.inl (startsWith_two ' ' ' ' _)
  · rw [pyStartsWith, List.isPrefixOf_iff_prefix] at h
    obtain ⟨t, rfl⟩ := h
    show lineOk (pyRStripChar ',' ('l' :: 'e' :: 't' :: t))
    rw [pyRStripChar_cons ',' 'l' _ (by decide), pyRStripChar_cons ',' 'e' _ (by decide),
      pyRStripChar_cons ',' 't' _ (by decide)]
    right
    simp [pyStartsWith, List.isPrefixOf]

theorem lineOk_ne_in (l : Str) (h : lineOk l) : ¬ l = chars "in" := by
  rcases h with h | h <;>
  · rw [pyStartsWith, List.isPrefixOf_iff_prefix] at h
    obtain ⟨t, rfl⟩ := h
    intro hc
    cases hc

theorem stripFinalComma_lineOk (L : List Str) (h : ∀ l ∈ L, lineOk l) :
    ∀ l ∈ stripFinalComma L, lineOk l := by
  rcases List.eq_nil_or_concat L with rfl | ⟨M, x, rfl⟩
  · exact h
  · rw [List.concat_eq_append] at h ⊢
    rw [stripFinalComma_concat_eq]
    split
    · intro l hml
      rcases List.mem_append.mp hml with hm | hm
      · exact h l (List.mem_append.mpr (Or.inl hm))
      · rw [List.mem_singleton] at hm
        subst hm
        exact lineOk_rstrip x (h x (by simp))
    · exact h

theorem ensureLastComma_lineOk (L : List Str) (h : ∀ l ∈ L, lineOk l) :
    ∀ l ∈ ensureLastComma L, lineOk l := by
  rcases List.eq_nil_or_concat L with rfl | ⟨M, x, rfl⟩
  · exact h
  · rw [List.concat_eq_append] at h ⊢
    rw [ensureLastComma_concat_eq]
    split
    · exact h
    · intro l hml
      rcases List.mem_append.mp hml with hm | hm
      · exact h l (List.mem_append.mpr (Or.inl hm))
      · rw [List.mem_singleton] at hm
        subst hm
        exact lineOk_append x (chars ",") (h x (by simp))

theorem indented_ne_in (v : Str) : ¬ (chars "  " ++ v) = chars "in" := by
  intro h
  cases h

theorem wellTerminated_of (L0 : List Str) (v : Str)
    (hok : ∀ l ∈ L0, lineOk l)
    (hlast : ∀ l, L0.getLast? = some l → pyEndsWith (pyStrip l) (chars ",") = false) :
    wellTerminated (L0 ++ [chars "in", chars "  " ++ v]) := by
  refine ⟨?_, L0, v, rfl, hlast⟩
  rw [List.filter_append]
  have h0 : L0.filter (fun l => decide (l = chars "in")) = [] := by
    rw [List.filter_eq_nil_iff]
    intro a ha
    simp only [decide_eq_true_eq]
    exact lineOk_ne_in a (hok a ha)
  rw [h0]
  simp [indented_ne_in v]

theorem selectColumnsLine_lineOk (b : Str) (cols : List (Str × Str)) :
    lineOk (selectColumnsLine b cols) := by
  left
  rfl

theorem typedLine_split (s : Str) (cols : List (Str × Str)) :
    typedLine s cols =
      ((chars "  Typed = Table.TransformColumnTypes(" ++ s ++ chars ", \x7b" ++
        pyJoin (chars ", ") (cols.map (fun c =>
          chars "\x7b\"" ++ c.fst ++ chars "\", " ++ map_datatype_to_m c.snd ++
            chars "\x7d"))) ++ [ '\x7d' ]) ++ [')', ','] := by
  unfold typedLine
  have h : (chars "\x7d)," : Str) = [ '\x7d' ] ++ [')', ','] := by decide
  rw [h]
  simp [List.append_assoc]

theorem typedLine_lineOk (s : Str) (cols : List (Str × Str)) :
    lineOk (typedLine s cols) := by
  left
  rfl

theorem mcodeSelect_lineOk (t : Table) (cols : List (Str × Str))
    (lines : List Str) (base : Str) (h : ∀ l ∈ lines, lineOk l) :
    ∀ l ∈ (mcodeSelect t cols lines base).fst, lineOk l := by
  unfold mcodeSelect
  split
  · intro l hml
    rcases List.mem_append.mp hml with hm | hm
    · exact h l hm
    · rw [List.mem_singleton] at hm
      subst hm
      exact selectColumnsLine_lineOk base cols
  · exact h

theorem mcodeTail_structure (p : Partition) (t : Table) (cols : List (Str × Str))
    (tf : List (Str × Str)) (lines : List Str) (base : Str)
    (hsteps : p.custom_steps = [])
    (hlines : ∀ l ∈ lines, lineOk l)
    (hshape : cols = [] → ∃ M z c, lines = M ++ [z ++ [c, ',']] ∧ ¬ c = ',' ∧
        pyIsSpace c = false ∧ lineOk (z ++ [c])) :
    ∃ L, mcodeTail p t cols tf lines base = Except.ok L ∧ wellTerminated L := by
  have hrun : mcodeTail p t cols tf lines base =
      Except.ok (mcodeFinalize p (mcodeTyped cols (mcodeSelect t cols lines base))) := by
    simp [mcodeTail, hsteps, emit_sequential_steps, bind, Except.bind, pure, Except.pure]
  refine ⟨_, hrun, ?_⟩
  rw [mcodeFinalize, hsteps]
  simp only [List.isEmpty_nil, if_true, reduceIte]
  by_cases hcols : cols = []
  · obtain ⟨M, z, c, hM, hc, hw, hok⟩ := hshape hcols
    have hsel : mcodeSelect t cols lines base = (lines, base) := by
      simp [mcodeSelect, hcols]
    have hty : mcodeTyped cols (lines, base) = (lines, base) := by
      simp [mcodeTyped, hcols]
    rw [hsel, hty]
    show wellTerminated (stripFinalComma lines ++ [chars "in", chars "  " ++ base])
    rw [hM, stripFinalComma_concat M z c hc]
    apply wellTerminated_of
    · intro l hml
      rcases List.mem_append.mp hml with hm | hm
      · exact hlines l (by rw [hM]; exact List.mem_append.mpr (Or.inl hm))
      · rw [List.mem_singleton] at hm
        subst hm
        exact hok
    · intro l hl
      rw [List.getLast?_concat] at hl
      cases hl
      exact pyStrip_ends_notcomma z c hc hw
  · have hty : mcodeTyped cols (mcodeSelect t cols lines base) =
        (ensureLastComma (mcodeSelect t cols lines base).fst ++
          [typedLine (mcodeSelect t cols lines base).snd cols], chars "Typed") := by
      simp [mcodeTyped, hcols]
    rw [hty]
    show wellTerminated (stripFinalComma (ensureLastComma
      (mcodeSelect t cols lines base).fst ++
        [typedLine (mcodeSelect t cols lines base).snd cols]) ++
      [chars "in", chars "  " ++ chars "Typed"])
    rw [typedLine_split, stripFinalComma_concat _ _ _ (by decide)]
    apply wellTerminated_of
    · intro l hml
      rcases List.mem_append.mp hml with hm | hm
      · exact ensureLastComma_lineOk _ (mcodeSelect_lineOk t cols lines base hlines) l hm
      · rw [List.mem_singleton] at hm
        subst hm
        left
        rfl
    · intro l hl
      rw [List.getLast?_concat] at hl
      cases hl
      exact pyStrip_ends_notcomma _ ')' (by decide) (by decide)

theorem pyRStrip_concat (w : Str) (c : Char) (h : pyIsSpace c = false) :
    pyRStrip (w ++ [c]) = w ++ [c] := by
  unfold pyRStrip
  rw [List.reverse_append]
  simp [List.dropWhile_cons, h]

theorem navigationBranch_wellTerminated (p : Partition) (t : Table)
    (cols tf : List (Str × Str)) (k : Str) (src : Source) (nav : Navigation)
    (hsteps : p.custom_steps = [])
    (hdb : optStrTruthy (navDatabase (some nav)) = true ∨ optStrTruthy src.database = true) :
    ∃ L, navigationBranch p t cols tf k src nav = Except.ok L ∧ wellTerminated L := by
  have hresolve : ∃ db, resolve_db p.name src k (some nav) true =
      Except.ok (dbNavLines src db) := by
    by_cases h2 : optStrTruthy (navDatabase (some nav)) = true
    · exact ⟨(navDatabase (some nav)).getD [], by simp [resolve_db, h2]⟩
    · have h3 : optStrTruthy src.database = true := by
        rcases hdb with h | h
        · exact absurd h h2
        · exact h
      refine ⟨src.database.getD [], ?_⟩
      rw [resolve_db]
      simp only [h2, h3]
      simp
  obtain ⟨db, hdbeq⟩ := hresolve
  have hTBLsuf : (chars "\", Kind = \"Table\"]\x7d[Data]," : Str) =
      chars "\", Kind = \"Table\"]\x7d[Data" ++ [']', ','] := by decide
  have hlines : ∀ l ∈ [chars "let"] ++ dbNavLines src db ++
      [chars "  SCH = DB\x7b[Name = \"" ++ nav.schema_ ++
         chars "\", Kind = \"Schema\"]\x7d[Data],",
       chars "  TBL = SCH\x7b[Name = \"" ++ nav.table ++
         chars "\", Kind = \"Table\"]\x7d[Data],"], lineOk l := by
    intro l hml
    simp only [dbNavLines, List.cons_append, List.nil_append, List.mem_cons,
      List.mem_singleton, List.not_mem_nil, or_false] at hml
    rcases hml with rfl | rfl | rfl | rfl | rfl
    · right; rfl
    · left; rfl
    · left; rfl
    · left; rfl
    · left; rfl
  have hshape : cols = [] → ∃ M z c, ([chars "let"] ++ dbNavLines src db ++
      [chars "  SCH = DB\x7b[Name = \"" ++ nav.schema_ ++
         chars "\", Kind = \"Schema\"]\x7d[Data],",
       chars "  TBL = SCH\x7b[Name = \"" ++ nav.table ++
         chars "\", Kind = \"Table\"]\x7d[Data],"]) = M ++ [z ++ [c, ',']] ∧
      ¬ c = ',' ∧ pyIsSpace c = false ∧ lineOk (z ++ [c]) := by
    intro _
    refine ⟨[chars "let"] ++ dbNavLines src db ++
      [chars "  SCH = DB\x7b[Name = \"" ++ nav.schema_ ++
         chars "\", Kind = \"Schema\"]\x7d[Data],"],
      (chars "  TBL = SCH\x7b[Name = \"" ++ nav.table ++
        chars "\", Kind = \"Table\"]\x7d[Data"), ']', ?_, by decide, by decide, ?_⟩
    · have hsplit : chars "  TBL = SCH\x7b[Name = \"" ++ nav.table ++
          chars "\", Kind = \"Table\"]\x7d[Data]," =
          (chars "  TBL = SCH\x7b[Name = \"" ++ nav.table ++
            chars "\", Kind = \"Table\"]\x7d[Data") ++ [']', ','] := by
        rw [hTBLsuf]
        simp [List.append_assoc]
      rw [← hsplit]
      simp [List.append_assoc]
    · left
      rfl
  obtain ⟨L, hL, hwt⟩ := mcodeTail_structure p t cols tf _ (chars "TBL") hsteps hlines hshape
  refine ⟨L, ?_, hwt⟩
  rw [← hL]
  simp only [navigationBranch, hdbeq, bind, Except.bind]

theorem pyLStrip_two_spaces (a : Char) (x : Str) (ha : pyIsSpace a = false) :
    pyLStrip (' ' :: ' ' :: a :: x) = a :: x := by
  have hsp : pyIsSpace ' ' = true := rfl
  unfold pyLStrip
  simp only [List.dropWhile_cons, hsp, ha, if_true, Bool.false_eq_true, if_false, reduceIte]

theorem dbLine_strip_starts (db : Str) :
    pyStartsWith (pyStrip (chars "  DB = SourceColl\x7b[Name = \"" ++ db ++
      chars "\", Kind = \"Database\"]\x7d[Data],")) (chars "DB =") = true := by
  have h1 : (chars "  DB = SourceColl\x7b[Name = \"" : Str) =
      ' ' :: ' ' :: 'D' :: chars "B = SourceColl\x7b[Name = \"" := by decide
  have h2 : (chars "\", Kind = \"Database\"]\x7d[Data]," : Str) =
      chars "\", Kind = \"Database\"]\x7d[Data]" ++ [','] := by decide
  have hshape : (chars "  DB = SourceColl\x7b[Name = \"" ++ db ++
      chars "\", Kind = \"Database\"]\x7d[Data],") =
      ' ' :: ' ' :: 'D' :: (chars "B = SourceColl\x7b[Name = \"" ++ db ++
        chars "\", Kind = \"Database\"]\x7d[Data],") := by
    rw [h1]
    simp
  rw [hshape]
  unfold pyStrip
  rw [pyLStrip_two_spaces 'D' _ (by rfl)]
  have hre : ('D' :: (chars "B = SourceColl\x7b[Name = \"" ++ db ++
      chars "\", Kind = \"Database\"]\x7d[Data],")) =
      ('D' :: (chars "B = SourceColl\x7b[Name = \"" ++ db ++
        chars "\", Kind = \"Database\"]\x7d[Data]")) ++ [','] := by
    rw [h2]
    simp
  rw [hre, pyRStrip_concat _ ',' (by rfl)]
  apply pyStartsWith_mono
  have h3 : (chars "DB = SourceColl\x7b[Name = \"" : Str) =
      'D' :: chars "B = SourceColl\x7b[Name = \"" := by decide
  have hcons : ('D' :: (chars "B = SourceColl\x7b[Name = \"" ++ db ++
      chars "\", Kind = \"Database\"]\x7d[Data]")) =
      chars "DB = SourceColl\x7b[Name = \"" ++ (db ++
        chars "\", Kind = \"Database\"]\x7d[Data]") := by
    rw [h3]
    simp [List.append_assoc]
  rw [hcons]
  apply pyStartsWith_mono
  decide

theorem nativeQueryBranch_wellTerminated (p : Partition) (t : Table)
    (cols tf : List (Str × Str)) (k : Str) (src : Source)
    (hsteps : p.custom_steps = [])
    (hdb : optStrTruthy (navDatabase p.navigation) = true ∨
      optStrTruthy src.database = true) :
    ∃ L, nativeQueryBranch p t cols tf k src = Except.ok L ∧ wellTerminated L := by
  have hresolve : ∃ db, resolve_db p.name src k p.navigation false =
      Except.ok (dbNavLines src db) := by
    by_cases h2 : optStrTruthy (navDatabase p.navigation) = true
    · exact ⟨(navDatabase p.navigation).getD [], by simp [resolve_db, h2]⟩
    · have h3 : optStrTruthy src.database = true := by
        rcases hdb with h | h
        · exact absurd h h2
        · exact h
      refine ⟨src.database.getD [], ?_⟩
      rw [resolve_db]
      simp only [h2, h3]
      simp
  obtain ⟨db, hdbeq⟩ := hresolve
  have hany : (([chars "let"] ++ dbNavLines src db).any
      (fun l => pyStartsWith (pyStrip l) (chars "DB ="))) = true := by
    rw [List.any_eq_true]
    refine ⟨chars "  DB = SourceColl\x7b[Name = \"" ++ db ++
      chars "\", Kind = \"Database\"]\x7d[Data],", ?_, ?_⟩
    · simp [dbNavLines]
    · exact dbLine_strip_starts db
  have hRsuf : (chars "\", null, [EnableFolding = true])," : Str) =
      chars "\", null, [EnableFolding = true]" ++ [')', ','] := by decide
  have hlines : ∀ l ∈ [chars "let"] ++ dbNavLines src db ++
      [chars "  Result = Value.NativeQuery(DB, \"" ++
        pyReplace (pyStrip (p.nativeQuery.getD [])) (chars "\"") (chars "\\\"") ++
        chars "\", null, [EnableFolding = true]),"], lineOk l := by
    intro l hml
    simp only [dbNavLines, List.cons_append, List.nil_append, List.mem_cons,
      List.mem_singleton, List.not_mem_nil, or_false] at hml
    rcases hml with rfl | rfl | rfl | rfl
    · right; rfl
    · left; rfl
    · left; rfl
    · left; rfl
  have hshape : cols = [] → ∃ M z c, ([chars "let"] ++ dbNavLines src db ++
      [chars "  Result = Value.NativeQuery(DB, \"" ++
        pyReplace (pyStrip (p.nativeQuery.getD [])) (chars "\"") (chars "\\\"") ++
        chars "\", null, [EnableFolding = true]),"]) = M ++ [z ++ [c, ',']] ∧
      ¬ c = ',' ∧ pyIsSpace c = false ∧ lineOk (z ++ [c]) := by
    intro _
    refine ⟨[chars "let"] ++ dbNavLines src db,
      (chars "  Result = Value.NativeQuery(DB, \"" ++
        pyReplace (pyStrip (p.nativeQuery.getD [])) (chars "\"") (chars "\\\"") ++
        chars "\", null, [EnableFolding = true]"), ')', ?_, by decide, by decide, ?_⟩
    · have hsplit : chars "  Result = Value.NativeQuery(DB, \"" ++
          pyReplace (pyStrip (p.nativeQuery.getD [])) (chars "\"") (chars "\\\"") ++
          chars "\", null, [EnableFolding = true])," =
          (chars "  Result = Value.NativeQuery(DB, \"" ++
            pyReplace (pyStrip (p.nativeQuery.getD [])) (chars "\"") (chars "\\\"") ++
            chars "\", null, [EnableFolding = true]") ++ [')', ','] := by
        rw [hRsuf]
        simp [List.append_assoc]
      rw [← hsplit]
    · left
      rfl
  obtain ⟨L, hL, hwt⟩ := mcodeTail_structure p t cols tf _ (chars "Result")
    hsteps hlines hshape
  refine ⟨L, ?_, hwt⟩
  rw [← hL]
  simp only [nativeQueryBranch, hdbeq, bind, Except.bind, hany, Bool.not_true,
    Bool.false_eq_true, if_false, reduceIte]

theorem lineOk_double_indent (x : Str) : lineOk (chars "  " ++ x) :=
  Or.inl (startsWith_two ' ' ' ' x)

theorem startsWith_two_append (a b : Char) (t u : Str) :
    pyStartsWith ((a :: b :: t) ++ u) [a, b] = true := by
  simp [pyStartsWith, List.isPrefixOf]

theorem lineOk_double_indent_append (x u : Str) : lineOk (chars "  " ++ x ++ u) :=
  Or.inl (startsWith_two_append ' ' ' ' x u)

theorem simpleSourceStep_lineOk (st : List Str × Bool × Option Str) (line : Str)
    (h : ∀ l ∈ st.fst, lineOk l) :
    ∀ l ∈ (simpleSourceStep st line).fst, lineOk l := by
  intro l hml
  unfold simpleSourceStep at hml
  dsimp only at hml
  split at hml
  · exact h l hml
  · split at hml
    · exact h l hml
    · split at hml
      · exact h l hml
      · split at hml
        · split at hml
          · rcases List.mem_append.mp hml with hm | hm
            · exact h l hm
            · rw [List.mem_singleton] at hm
              subst hm
              exact lineOk_double_indent_append _ _
          · rcases List.mem_append.mp hml with hm | hm
            · exact h l hm
            · rw [List.mem_singleton] at hm
              subst hm
              exact lineOk_double_indent _
        · exact h l hml

theorem simpleSourceFold_lineOk (ls : List Str) (st : List Str × Bool × Option Str)
    (h : ∀ l ∈ st.fst, lineOk l) :
    ∀ l ∈ (ls.foldl simpleSourceStep st).fst, lineOk l := by
  induction ls generalizing st with
  | nil => exact h
  | cons a rest ih =>
    exact ih (simpleSourceStep st a) (simpleSourceStep_lineOk st a h)

theorem simpleSourceBranch_wellTerminated (p : Partition) (t : Table)
    (cols tf : List (Str × Str)) (k : Str) (src : Source)
    (tmpl : Source → Str → Str)
    (hsteps : p.custom_steps = [])
    (hcols : cols ≠ []) :
    ∃ L, simpleSourceBranch p t cols tf k src tmpl = Except.ok L ∧
      wellTerminated L := by
  have hlines : ∀ l ∈ ((pySplitChar '\n' (pyStrip (tmpl src k))).foldl
      simpleSourceStep ([chars "let"], false, none)).fst, lineOk l := by
    apply simpleSourceFold_lineOk
    intro l hl
    rw [List.mem_singleton] at hl
    subst hl
    right
    rfl
  obtain ⟨L, hL, hwt⟩ := mcodeTail_structure p t cols tf
    ((pySplitChar '\n' (pyStrip (tmpl src k))).foldl
      simpleSourceStep ([chars "let"], false, none)).fst
    (match ((pySplitChar '\n' (pyStrip (tmpl src k))).foldl
        simpleSourceStep ([chars "let"], false, none)).snd.snd with
      | some v => if v.isEmpty then chars "Sheet" else v
      | none => chars "Sheet")
    hsteps hlines (fun hc => absurd hc hcols)
  exact ⟨L, hL, hwt⟩

/-- A custom-step-free partition used to exercise the finalization
variants. -/
def c6Partition : Partition :=
  { name := chars "P6", use := some (chars "s") }

/-- A table with one declared column for the finalization variants. -/
def c6Table : Table :=
  { name := chars "T6", columns := [{ name := chars "Id", dataType := chars "int64" }] }

/-- A snowflake source with a default database for the finalization
variants. -/
def c6Src : Source :=
  { kind := chars "snowflake", server := some (chars "sv"),
    database := some (chars "D") }

/-- C6: for partitions without custom transform steps, every expression the
generator builds across the navigation (under both the select_only and the
keep_all column policies, since the table and its declared columns are
arbitrary here), native-query and simple-source variants contains exactly one
terminal return line (the line in followed by the indented final seed
variable) and no trailing comma on the binding immediately before it; and the
builder fails with the no-data-source configuration error when no seed
variable was ever established. -/
theorem C6_single_terminal_clause (p : Partition) (t : Table)
    (cols tf : List (Str × Str)) (k : Str) (src : Source)
    (tmpl : Source → Str → Str) (pn : Str) (lines : List Str) (s : Option Str)
    (hsteps : p.custom_steps = []) :
    (optStrTruthy s = false →
        builder_build pn lines s =
          Except.error (chars "No data source configured for partition " ++ pn)) ∧
    (∀ nav, optStrTruthy (navDatabase (some nav)) = true ∨
          optStrTruthy src.database = true →
        ∃ L, navigationBranch p t cols tf k src nav = Except.ok L ∧
          wellTerminated L) ∧
    (optStrTruthy (navDatabase p.navigation) = true ∨
          optStrTruthy src.database = true →
        ∃ L, nativeQueryBranch p t cols tf k src = Except.ok L ∧
          wellTerminated L) ∧
    (cols ≠ [] →
        ∃ L, simpleSourceBranch p t cols tf k src tmpl = Except.ok L ∧
          wellTerminated L) := by
  refine ⟨?_, ?_, ?_, ?_⟩
  · intro hs
    simp [builder_build, hs]
  · intro nav hdb
    exact navigationBranch_wellTerminated p t cols tf k src nav hsteps hdb
  · intro hdb
    exact nativeQueryBranch_wellTerminated p t cols tf k src hsteps hdb
  · intro hcols
    exact simpleSourceBranch_wellTerminated p t cols tf k src tmpl hsteps hcols

/-- C6 witness: the hypotheses are satisfied at a concrete partition, table
and source, exercising the builder error and the navigation, native-query and
simple-source variants. -/
theorem C6_single_terminal_clause_witness :
    c6Partition.custom_steps = [] ∧
    builder_build (chars "P6") [] none =
      Except.error (chars "No data source configured for partition " ++ chars "P6") ∧
    (∃ L, navigationBranch c6Partition c6Table [(chars "Id", chars "int64")] []
        (chars "s") c6Src
        { database := some (chars "D"), schema_ := chars "S", table := chars "T" } =
        Except.ok L ∧ wellTerminated L) ∧
    (∃ L, nativeQueryBranch c6Partition c6Table [(chars "Id", chars "int64")] []
        (chars "s") c6Src = Except.ok L ∧ wellTerminated L) ∧
    (∃ L, simpleSourceBranch c6Partition c6Table [(chars "Id", chars "int64")] []
        (chars "s") c6Src (fun _ _ => []) = Except.ok L ∧ wellTerminated L) := by
  have h := C6_single_terminal_clause c6Partition c6Table
    [(chars "Id", chars "int64")] [] (chars "s") c6Src (fun _ _ => [])
    (chars "P6") [] none rfl
  exact ⟨rfl, h.1 rfl,
    h.2.1 { database := some (chars "D"), schema_ := chars "S", table := chars "T" }
      (Or.inl (by decide)),
    h.2.2.1 (Or.inr (by decide)), h.2.2.2 (by decide)⟩

end Yaml2Pbip
